import Mathlib

/-!
# mkvdualsub: track discovery and track selection

A shallow embedding of `main.go`: the line-parsing loop of `extractSubtitleInfo`,
`mustValidTrackNumber`, and the body of the `join` command (track resolution,
the two extractor invocations, the existence check of the destination and the
upload), together with the library routines they call (`strings.Contains`,
`strings.TrimPrefix`, `strings.Index`, `strconv.Atoi`, `bufio.Scanner` with
`bufio.ScanLines`).

A Go `string` / `[]byte` is a sequence of bytes; a byte is modelled as a natural
number (a real byte is below 256) and byte arithmetic is written with an explicit
`% 256`.  Go `int` is the 64-bit signed integer; values are modelled in `Int` and
the places where the width matters (`strconv`) carry the bounds explicitly.
-/

namespace MkvDualSub

deriving instance DecidableEq for Except

/-- A Go string (or byte slice): its bytes in order, each byte a natural number
below 256. -/
abbrev GoString := List Nat

/-- The bytes of an ASCII literal. -/
def ascii (s : String) : GoString := s.toList.map Char.toNat

/-! ## package strings -/

namespace strings

/-- `strings.HasPrefix(s, p)`: `len(s) >= len(p) && s[:len(p)] == p`. -/
def HasPrefix (s p : GoString) : Bool := p.isPrefixOf s

/-- Index of the first occurrence of `substr` in `s`, if any. -/
def indexOpt (substr : GoString) : GoString → Option Nat
  | [] => if substr = [] then some 0 else none
  | c :: cs =>
    if HasPrefix (c :: cs) substr then some 0
    else (indexOpt substr cs).map (· + 1)

/-- `strings.Index(s, substr)`: index of the first instance of `substr` in `s`,
or `-1` if `substr` is not present. -/
def Index (s substr : GoString) : Int :=
  match indexOpt substr s with
  | some i => (i : Int)
  | none => -1

/-- `strings.Contains(s, substr)`: `Index(s, substr) >= 0`. -/
def Contains (s substr : GoString) : Bool := decide (0 ≤ Index s substr)

/-- `strings.TrimPrefix(s, p)`: `s` without the leading `p`; `s` unchanged when it
does not start with `p`. -/
def TrimPrefix (s p : GoString) : GoString :=
  if HasPrefix s p then s.drop p.length else s

end strings

/-! ## package strconv -/

namespace strconv

/-- The two `NumError` causes. -/
inductive NumError where
  | ErrSyntax
  | ErrRange
  deriving DecidableEq, Repr

/-- `strconv.IntSize`: the size in bits of `int`. -/
def IntSize : Nat := 64

/-- `maxUint64`. -/
def maxUint64 : Nat := 2 ^ 64 - 1

/-- The digit loop of `ParseUint(s, 10, 64)` from accumulator `n`.  A byte that is
not a decimal digit is a syntax error (with base 10 a letter has value at least
10 and the underscore is only allowed for base 0).  `cutoff = maxUint64/10 + 1`;
`n*10` overflows when `n >= cutoff`, and `n + d` overflows when the 64-bit sum is
below `n`. -/
def parseUintLoop : GoString → Nat → Except NumError Nat
  | [], n => .ok n
  | c :: cs, n =>
    if 48 ≤ c ∧ c ≤ 57 then
      let d := c - 48
      if n ≥ maxUint64 / 10 + 1 then .error .ErrRange
      else
        let n10 := n * 10
        let n1 := (n10 + d) % 2 ^ 64
        if n1 < n10 ∨ n1 > maxUint64 then .error .ErrRange
        else parseUintLoop cs n1
    else .error .ErrSyntax

/-- `strconv.ParseUint(s, 10, 64)`. -/
def ParseUint (s : GoString) : Except NumError Nat :=
  if s = [] then .error .ErrSyntax else parseUintLoop s 0

/-- `strconv.ParseInt(s, 10, 0)`: optional sign, then `ParseUint`; the magnitude
must fit `int` (`cutoff = 1 << (IntSize-1)`).  A range error of `ParseUint`
carries the value `maxUint64`, which the cutoff test rejects again. -/
def ParseInt (s : GoString) : Except NumError Int :=
  match s with
  | [] => .error .ErrSyntax
  | c :: cs =>
    let neg := decide (c = 45)
    let body := if c = 43 ∨ c = 45 then cs else c :: cs
    match ParseUint body with
    | .error e => .error e
    | .ok un =>
      let cutoff := 2 ^ (IntSize - 1)
      if !neg ∧ un ≥ cutoff then .error .ErrRange
      else if neg ∧ un > cutoff then .error .ErrRange
      else .ok (if neg then -(un : Int) else (un : Int))

/-- The digit loop of the fast path of `Atoi`: `ch -= '0'` in byte arithmetic,
`ch > 9` is a syntax error, else `n = n*10 + int(ch)`. -/
def atoiFastLoop : GoString → Int → Except NumError Int
  | [], n => .ok n
  | ch :: cs, n =>
    let d := (ch + 256 - 48) % 256
    if d > 9 then .error .ErrSyntax
    else atoiFastLoop cs (n * 10 + (d : Int))

/-- `strconv.Atoi(s)`.  Strings of 1 to 18 bytes take the fast path (sign, then
digits, no overflow possible); the others go through `ParseInt(s, 10, 0)`. -/
def Atoi (s : GoString) : Except NumError Int :=
  if 0 < s.length ∧ s.length < 19 then
    match s with
    | [] => .error .ErrSyntax
    | c :: cs =>
      let signed := decide (c = 45 ∨ c = 43)
      let body := if signed then cs else c :: cs
      if signed ∧ body.length < 1 then .error .ErrSyntax
      else
        match atoiFastLoop body 0 with
        | .error e => .error e
        | .ok n => .ok (if c = 45 then -n else n)
  else ParseInt s

end strconv

/-! ## package bufio -/

namespace bufio

/-- `bufio.MaxScanTokenSize`: the size of the largest buffer a `Scanner` made by
`NewScanner` allocates. -/
def MaxScanTokenSize : Nat := 64 * 1024

/-- `bytes.IndexByte(data, c)`. -/
def indexByte (c : Nat) : GoString → Option Nat
  | [] => none
  | b :: bs => if b = c then some 0 else (indexByte c bs).map (· + 1)

/-- `dropCR`: drops one terminal `\r`. -/
def dropCR (data : GoString) : GoString :=
  if data.getLast? = some 13 then data.dropLast else data

/-- `bufio.ScanLines(data, atEOF)`: the pair `(advance, token)`; no token is
`none`. -/
def ScanLines (data : GoString) (atEOF : Bool) : Nat × Option GoString :=
  if atEOF ∧ data = [] then (0, none)
  else
    match indexByte 10 data with
    | some i => (i + 1, some (dropCR (data.take i)))
    | none => if atEOF then (data.length, some (dropCR data)) else (0, none)

/-- What one call of `Scanner.Scan` gives. -/
inductive ScanResult where
  /-- `Scan` returned true: the token (`Text()`) and the input left after it. -/
  | token (text rest : GoString)
  /-- `Scan` returned false at the end of the input; `Err()` is nil. -/
  | eof
  /-- `Scan` returned false; `Err()` is `ErrTooLong`. -/
  | errTooLong
  deriving DecidableEq, Repr

/-- One `Scanner.Scan()` of a scanner made by `NewScanner(bytes.NewReader(out))`
(split function `ScanLines`, buffer limit `MaxScanTokenSize`), `input` being the
bytes not yet consumed.  The scanner's buffer grows up to `MaxScanTokenSize` and
holds the input from the start of the current token; the split function sees
`atEOF` only after a read into a buffer that is not full found the reader
drained, so only when fewer than `MaxScanTokenSize` bytes are left.  When the
full buffer holds no token the scanner stops with `ErrTooLong`. -/
def Scan (input : GoString) : ScanResult :=
  let buf := input.take MaxScanTokenSize
  let atEOF := decide (input.length < MaxScanTokenSize)
  match ScanLines buf atEOF with
  | (advance, some text) => .token text (input.drop advance)
  | (_, none) => if atEOF then .eof else .errTooLong

end bufio

/-! ## main.go -/

/-- `type subtitleInfo struct { Track int; Info string }`. -/
structure subtitleInfo where
  Track : Int
  Info : GoString
  deriving DecidableEq, Repr

/-- The errors the program reports; each carries the value its message prints. -/
inductive Error where
  /-- `error calling mkvmerge: %v`. -/
  | callingMkvmerge
  /-- `malformed subtitle line: %s`. -/
  | malformedLine (line : GoString)
  /-- `malformed subtitle number: %s`. -/
  | malformedNumber (line : GoString)
  /-- `scanner.Err()`, which for an in-memory reader is `bufio.ErrTooLong`. -/
  | scannerTooLong
  /-- `number of available subtitles less than 2 (%d)`. -/
  | lessThanTwo (n : Nat)
  /-- `invalid number of subtitle track: (%d)`. -/
  | invalidTrack (num : Int)
  /-- Run-time panic of `subtitles[i]` out of range. -/
  | indexOutOfRange
  /-- The error of `execCmd.Output()` of mkvextract. -/
  | mkvextractFailed
  /-- The error of `os.Open` in `mustOpen`. -/
  | openFailed (path : GoString)
  /-- `%s already exists`. -/
  | alreadyExists (outFile : GoString)
  /-- An error while the multipart body is written. -/
  | formFailed
  /-- The error of `client.Do`. -/
  | requestFailed
  /-- `bad status code: %s`. -/
  | badStatus (code : Nat)
  /-- The error of `os.Create(outFile)`. -/
  | createFailed
  /-- The error of `io.Copy(out, resp.Body)`. -/
  | copyFailed
  deriving DecidableEq, Repr

/-- The literal `"subtitles"`. -/
def subtitlesLit : GoString := ascii "subtitles"

/-- The literal `"Track ID "`. -/
def trackIdLit : GoString := ascii "Track ID "

/-- The literal `":"`. -/
def colonLit : GoString := ascii ":"

/-- The body of `for scanner.Scan() { ... }` of `extractSubtitleInfo` followed by
the `scanner.Err()` test: `input` is what the scanner has not consumed yet and
`subtitles` the slice built so far.  Each iteration consumes at least one byte,
so `fuel` above the length of `input` is never exhausted (`scanLoop_fuel`) and the
first equation is not reached from `extractSubtitleInfo`. -/
def scanLoop : Nat → GoString → List subtitleInfo → Except Error (List subtitleInfo)
  | 0, _, _ => .error .scannerTooLong
  | fuel + 1, input, subtitles =>
    match bufio.Scan input with
    | .eof => .ok subtitles
    | .errTooLong => .error .scannerTooLong
    | .token line rest =>
      if strings.Contains line subtitlesLit then
        let trimmed := strings.TrimPrefix line trackIdLit
        let colonIndex := strings.Index trimmed colonLit
        if colonIndex ≤ 0 then .error (.malformedLine line)
        else
          match strconv.Atoi (trimmed.take colonIndex.toNat) with
          | .error _ => .error (.malformedNumber line)
          | .ok trackNumber =>
            scanLoop fuel rest (subtitles ++ [{ Track := trackNumber, Info := line }])
      else scanLoop fuel rest subtitles

/-- `extractSubtitleInfo(pathMerge, file)`, given what `execCmd.Output()` of
`mkvmerge -i file` returned: `none` for an error, else the standard output. -/
def extractSubtitleInfo (out : Option GoString) : Except Error (List subtitleInfo) :=
  match out with
  | none => .error .callingMkvmerge
  | some out => scanLoop (out.length + 1) out []

/-- `mustValidTrackNumber(num, subtitles)`: returns when some descriptor has the
id `num`, else exits the process with the error. -/
def mustValidTrackNumber (num : Int) : List subtitleInfo → Except Error Unit
  | [] => .error (.invalidTrack num)
  | sub :: rest => if sub.Track = num then .ok () else mustValidTrackNumber num rest

/-- The loop `for _, sub := range subtitles { if sub.Track != other { x = sub.Track;
break } }`: the final value of `x`, which starts as `x`. -/
def firstOther (other : Int) : List subtitleInfo → Int → Int
  | [], x => x
  | sub :: rest, x => if sub.Track ≠ other then sub.Track else firstOther other rest x

/-- The track resolution of `cmdJoin.Run` (the `if`/`else if` chain on `topTrack`
and `bottomTrack`): the final `(topTrack, bottomTrack)`. -/
def resolveTracks (subtitles : List subtitleInfo) (topTrack bottomTrack : Int) :
    Except Error (Int × Int) :=
  if topTrack < 0 ∧ bottomTrack < 0 then
    match subtitles[0]?, subtitles[1]? with
    | some s0, some s1 => .ok (s0.Track, s1.Track)
    | _, _ => .error .indexOutOfRange
  else if topTrack < 0 then
    match mustValidTrackNumber bottomTrack subtitles with
    | .error e => .error e
    | .ok _ => .ok (firstOther bottomTrack subtitles topTrack, bottomTrack)
  else if bottomTrack < 0 then
    match mustValidTrackNumber topTrack subtitles with
    | .error e => .error e
    | .ok _ => .ok (topTrack, firstOther topTrack subtitles bottomTrack)
  else
    match mustValidTrackNumber bottomTrack subtitles with
    | .error e => .error e
    | .ok _ =>
      match mustValidTrackNumber topTrack subtitles with
      | .error e => .error e
      | .ok _ => .ok (topTrack, bottomTrack)

/-- The externally visible steps of a run of `join`. -/
inductive Action where
  /-- `mkvmerge -i file`. -/
  | mkvmerge (file : GoString)
  /-- `mkvextract tracks file track:out`. -/
  | mkvextract (file : GoString) (track : Int) (out : GoString)
  /-- `os.Open(path)`. -/
  | openFile (path : GoString)
  /-- `os.Stat(path)`. -/
  | stat (path : GoString)
  /-- `client.Do(req)`: the POST to the merge service. -/
  | httpPost
  /-- `os.Create(path)`. -/
  | create (path : GoString)
  /-- `io.Copy(out, resp.Body)`. -/
  | writeBody (path : GoString)
  /-- A deferred `Close` of an opened file. -/
  | closeFile (path : GoString)
  /-- A deferred `os.Remove(path)`. -/
  | remove (path : GoString)
  deriving DecidableEq, Repr

/-- What the environment answers to each external step of one run. -/
structure World where
  /-- Standard output of `mkvmerge -i file`, `none` when the call fails. -/
  mkvmergeOut : GoString → Option GoString
  /-- Whether `mkvextract tracks file track:out` succeeds. -/
  mkvextractOk : GoString → Int → GoString → Bool
  /-- The value of `filepath.Join(os.TempDir(), "mkvdualsub_top.srt")`. -/
  topFile : GoString
  /-- The value of `filepath.Join(os.TempDir(), "mkvdualsub_bottom.srt")`. -/
  bottomFile : GoString
  /-- Whether `os.Open(path)` succeeds. -/
  openOk : GoString → Bool
  /-- Whether `os.Stat(path)` returns a nil error (the file exists). -/
  statOk : GoString → Bool
  /-- Whether writing the multipart body succeeds. -/
  formOk : Bool
  /-- The status code of the response, `none` when `client.Do` fails. -/
  response : Option Nat
  /-- Whether `os.Create(path)` succeeds. -/
  createOk : GoString → Bool
  /-- Whether `io.Copy(out, resp.Body)` succeeds. -/
  copyOk : Bool

/-- `getAssFile(client, values, outFile)`: the steps it performs and its error.
It returns normally, so its deferred `out.Close()` runs once the destination has
been created. -/
def getAssFile (w : World) (outFile : GoString) : List Action × Except Error Unit :=
  if !w.formOk then ([], .error .formFailed)
  else
    match w.response with
    | none => ([.httpPost], .error .requestFailed)
    | some code =>
      if code ≠ 200 then ([.httpPost], .error (.badStatus code))
      else if !w.createOk outFile then ([.httpPost, .create outFile], .error .createFailed)
      else if !w.copyOk then
        ([.httpPost, .create outFile, .writeBody outFile, .closeFile outFile],
          .error .copyFailed)
      else ([.httpPost, .create outFile, .writeBody outFile, .closeFile outFile], .ok ())

/-- The part of `cmdJoin.Run` after track resolution (from `topFile := ...` on):
the steps performed and the outcome.  An `exitWithErr` ends the process without
running the deferred calls; a normal return runs them in reverse order. -/
def extractAndUpload (w : World) (filePath : GoString) (topTrack bottomTrack : Int) :
    List Action × Except Error Unit :=
  let a1 := [Action.mkvextract filePath topTrack w.topFile]
  if !w.mkvextractOk filePath topTrack w.topFile then (a1, .error .mkvextractFailed)
  else
    let a2 := a1 ++ [Action.mkvextract filePath bottomTrack w.bottomFile]
    if !w.mkvextractOk filePath bottomTrack w.bottomFile then (a2, .error .mkvextractFailed)
    else
      let a3 := a2 ++ [Action.openFile w.topFile]
      if !w.openOk w.topFile then (a3, .error (.openFailed w.topFile))
      else
        let a4 := a3 ++ [Action.openFile w.bottomFile]
        if !w.openOk w.bottomFile then (a4, .error (.openFailed w.bottomFile))
        else
          let outFile := filePath ++ ascii ".ass"
          let a5 := a4 ++ [Action.stat outFile]
          if w.statOk outFile then (a5, .error (.alreadyExists outFile))
          else
            match getAssFile w outFile with
            | (a6, .error e) => (a5 ++ a6, .error e)
            | (a6, .ok _) =>
              (a5 ++ a6 ++ [Action.closeFile w.bottomFile, Action.closeFile w.topFile,
                Action.remove w.bottomFile, Action.remove w.topFile], .ok ())

/-- The part of `cmdJoin.Run` after discovery succeeded with `subtitles`: the
count check, track resolution, then extraction and upload. -/
def joinTracks (w : World) (filePath : GoString) (subtitles : List subtitleInfo)
    (topTrack bottomTrack : Int) : List Action × Except Error Unit :=
  if subtitles.length < 2 then ([], .error (.lessThanTwo subtitles.length))
  else
    match resolveTracks subtitles topTrack bottomTrack with
    | .error e => ([], .error e)
    | .ok (top, bottom) => extractAndUpload w filePath top bottom

/-- `cmdJoin.Run` on `args[0] = filePath` with the flag values `topTrack` and
`bottomTrack` (`-1` when a flag is absent): the steps performed, in order, and
the outcome (`.error e` is `exitWithErr`). -/
def join (w : World) (filePath : GoString) (topTrack bottomTrack : Int) :
    List Action × Except Error Unit :=
  match extractSubtitleInfo (w.mkvmergeOut filePath) with
  | .error e => ([.mkvmerge filePath], .error e)
  | .ok subtitles =>
    let r := joinTracks w filePath subtitles topTrack bottomTrack
    (Action.mkvmerge filePath :: r.1, r.2)

/-! ## Notions used to state the properties -/

/-- The track ids of a descriptor list, in list order. -/
def trackIds (subtitles : List subtitleInfo) : List Int := subtitles.map (·.Track)

/-- An environment in which every external step succeeds: `mkvmerge -i` prints
`out`, and the destination of `join` exists exactly when `destExists`. -/
def cooperativeWorld (out : GoString) (destExists : Bool) : World where
  mkvmergeOut := fun _ => some out
  mkvextractOk := fun _ _ _ => true
  topFile := ascii "/tmp/mkvdualsub_top.srt"
  bottomFile := ascii "/tmp/mkvdualsub_bottom.srt"
  openOk := fun _ => true
  statOk := fun _ => destExists
  formOk := true
  response := some 200
  createOk := fun _ => true
  copyOk := true

/-- A demuxer output with one video track and two subtitle tracks. -/
def twoSubtitles : GoString :=
  ascii "File 'a.mkv': container: Matroska\nTrack ID 0: video (AVC)\nTrack ID 2: subtitles (SubRip/SRT)\nTrack ID 3: subtitles (SubRip/SRT)\n"

/-- A demuxer output with a single subtitle track. -/
def oneSubtitle : GoString :=
  ascii "Track ID 0: video (AVC)\nTrack ID 2: subtitles (SubRip/SRT)\n"

/-- The lines of a text as `bufio.ScanLines` delimits them, before the carriage
return is dropped: the runs between newlines, a final run that is empty not
counted. -/
def rawLines : GoString → List GoString
  | [] => []
  | c :: cs =>
    if c = 10 then [] :: rawLines cs
    else
      match rawLines cs with
      | [] => [[c]]
      | l :: ls => (c :: l) :: ls

/-- The lines of a text: each run between newlines, without one trailing `\r`. -/
def lines (out : GoString) : List GoString := (rawLines out).map bufio.dropCR

/-- Spec: what is written between the `"Track ID "` prefix and the first `:` of a
line that starts with the prefix. -/
def idText (line : GoString) : GoString :=
  (line.drop trackIdLit.length).takeWhile (fun c => decide (c ≠ 58))

/-- Spec: the number a string of decimal digits denotes, continuing from `n`. -/
def decimalFrom (n : Nat) (digits : GoString) : Nat :=
  digits.foldl (fun acc c => acc * 10 + (c - 48)) n

/-- Spec: the number a string of decimal digits denotes. -/
def decimalValue (digits : GoString) : Nat := decimalFrom 0 digits

/-- Spec: a well-formed subtitle line matches `Track ID <int>: ...`: the literal
prefix, then a non-empty run of decimal digits denoting a value of `int`, then
`:`. -/
def WellFormedLine (line : GoString) : Prop :=
  strings.HasPrefix line trackIdLit = true ∧
    idText line ≠ [] ∧
    (∀ c ∈ idText line, 48 ≤ c ∧ c ≤ 57) ∧
    58 ∈ line.drop trackIdLit.length ∧
    decimalValue (idText line) < 2 ^ 63

instance (line : GoString) : Decidable (WellFormedLine line) :=
  inferInstanceAs (Decidable (_ ∧ _ ∧ _ ∧ _ ∧ _))

/-- The descriptor the spec assigns to a well-formed subtitle line. -/
def descriptorOf (line : GoString) : subtitleInfo :=
  { Track := (decimalValue (idText line) : Int), Info := line }

/-- The text of a line before its first `:`, once a leading `"Track ID "` (if
any) is removed. -/
def numeralOf (line : GoString) : GoString :=
  (strings.TrimPrefix line trackIdLit).takeWhile (fun c => decide (c ≠ 58))

/-- The shape of a subtitle line the parser accepts: once a leading `"Track ID "`
(if any) is removed, a non-empty numeral accepted by `strconv.Atoi`, then `:`,
then the rest of the line. -/
def AcceptedLine (line : GoString) : Prop :=
  ∃ n rest, strings.TrimPrefix line trackIdLit = numeralOf line ++ colonLit ++ rest ∧
    numeralOf line ≠ [] ∧ strconv.Atoi (numeralOf line) = .ok n

/-- Spec: a malformed subtitle line: after the `"Track ID "` prefix is stripped it
has no `:`, or `:` is its first byte, or the text before the first `:` does not
parse as an integer. -/
def MalformedLine (line : GoString) : Prop :=
  58 ∉ strings.TrimPrefix line trackIdLit ∨
    (strings.TrimPrefix line trackIdLit).head? = some 58 ∨
    ∃ e, strconv.Atoi (numeralOf line) = .error e

/-- What the loop body of `extractSubtitleInfo` does with one scanned line: no
descriptor (`none`) for a line without `"subtitles"`, else the descriptor or the
error. -/
def lineResult (line : GoString) : Except Error (Option subtitleInfo) :=
  if strings.Contains line subtitlesLit then
    let trimmed := strings.TrimPrefix line trackIdLit
    let colonIndex := strings.Index trimmed colonLit
    if colonIndex ≤ 0 then .error (.malformedLine line)
    else
      match strconv.Atoi (trimmed.take colonIndex.toNat) with
      | .error _ => .error (.malformedNumber line)
      | .ok trackNumber => .ok (some { Track := trackNumber, Info := line })
  else .ok none

/-- The scan loop told line by line: a raw line of `MaxScanTokenSize` bytes or
more stops the scanner with `ErrTooLong`, any other line goes through the loop
body without its trailing `\r`. -/
def processLines : List GoString → List subtitleInfo → Except Error (List subtitleInfo)
  | [], subtitles => .ok subtitles
  | raw :: rest, subtitles =>
    if bufio.MaxScanTokenSize ≤ raw.length then .error .scannerTooLong
    else
      match lineResult (bufio.dropCR raw) with
      | .error e => .error e
      | .ok none => processLines rest subtitles
      | .ok (some d) => processLines rest (subtitles ++ [d])

/-- A demuxer output that is one line of 65536 bytes `a`, without a newline. -/
def longLine : GoString := List.replicate 65536 97

/-- A demuxer output whose first line has 65536 bytes and whose second line is
`Track IDsubtitles`. -/
def longThenMalformed : GoString := List.replicate 65536 97 ++ 10 :: ascii "Track IDsubtitles"

/-! ## Track selection resolution -/

theorem mustValid_ok_iff (num : Int) (subs : List subtitleInfo) :
    mustValidTrackNumber num subs = .ok () ↔ num ∈ trackIds subs := by
  induction subs with
  | nil => simp [mustValidTrackNumber, trackIds]
  | cons sub rest ih =>
    by_cases h : sub.Track = num
    · simp [mustValidTrackNumber, trackIds, h]
    · have h2 : ¬ num = sub.Track := fun e => h e.symm
      simp only [mustValidTrackNumber, h, if_false, ih]
      simp [trackIds, h2]

theorem mustValid_error (num : Int) (subs : List subtitleInfo) (h : num ∉ trackIds subs) :
    mustValidTrackNumber num subs = .error (.invalidTrack num) := by
  induction subs with
  | nil => simp [mustValidTrackNumber]
  | cons sub rest ih =>
    simp only [trackIds, List.map_cons, List.mem_cons, not_or] at h
    have h1 : ¬ sub.Track = num := fun e => h.1 e.symm
    simp only [mustValidTrackNumber, h1, if_false]
    exact ih h.2

theorem mustValid_of_mem (num : Int) (subs : List subtitleInfo) (h : num ∈ trackIds subs) :
    mustValidTrackNumber num subs = .ok () := (mustValid_ok_iff num subs).2 h

theorem firstOther_eq_find (other : Int) (subs : List subtitleInfo) (x : Int) :
    firstOther other subs x =
      match subs.find? (fun s => decide (s.Track ≠ other)) with
      | some d => d.Track
      | none => x := by
  induction subs with
  | nil => simp [firstOther]
  | cons sub rest ih =>
    by_cases h : sub.Track = other
    · simp [firstOther, h, List.find?_cons, ih]
    · simp [firstOther, h, List.find?_cons]

theorem exists_other_of_nodup (other : Int) (subs : List subtitleInfo)
    (hlen : 2 ≤ subs.length) (hnd : (trackIds subs).Nodup) :
    ∃ d, subs.find? (fun s => decide (s.Track ≠ other)) = some d := by
  match subs, hlen, hnd with
  | s0 :: s1 :: rest, _, hnd =>
    have hne : s0.Track ≠ s1.Track := by
      simp only [trackIds, List.map_cons, List.nodup_cons, List.mem_cons, not_or] at hnd
      exact hnd.1.1
    by_cases h0 : s0.Track = other
    · have h1 : s1.Track ≠ other := fun e => hne (h0.trans e.symm)
      exact ⟨s1, by simp [List.find?_cons, h0, h1]⟩
    · exact ⟨s0, by simp [List.find?_cons, h0]⟩

theorem find_other_spec (other : Int) (subs : List subtitleInfo) (d : subtitleInfo)
    (h : subs.find? (fun s => decide (s.Track ≠ other)) = some d) :
    d.Track ∈ trackIds subs ∧ d.Track ≠ other := by
  have h1 := List.find?_some h
  have h2 := List.mem_of_find?_eq_some h
  refine ⟨?_, by simpa using h1⟩
  exact List.mem_map.2 ⟨d, h2, rfl⟩

/-- Claim C2.  On a descriptor list of at least two entries with pairwise distinct
ids, whenever track resolution succeeds both resolved ids are ids of the list, and
they differ as soon as one of the two requested values was unspecified
(negative). -/
theorem resolveTracks_sound (subs : List subtitleInfo) (top bottom t b : Int)
    (hlen : 2 ≤ subs.length) (hnd : (trackIds subs).Nodup)
    (hres : resolveTracks subs top bottom = .ok (t, b)) :
    t ∈ trackIds subs ∧ b ∈ trackIds subs ∧ ((top < 0 ∨ bottom < 0) → t ≠ b) := by
  unfold resolveTracks at hres
  by_cases h1 : top < 0 ∧ bottom < 0
  · rw [if_pos h1] at hres
    match subs, hlen, hnd with
    | s0 :: s1 :: rest, _, hnd =>
      simp only [List.getElem?_cons_zero, List.getElem?_cons_succ, Except.ok.injEq,
        Prod.mk.injEq] at hres
      obtain ⟨rfl, rfl⟩ := hres
      simp only [trackIds, List.map_cons, List.nodup_cons, List.mem_cons, not_or] at hnd
      refine ⟨by simp [trackIds], by simp [trackIds], fun _ => hnd.1.1⟩
  · rw [if_neg h1] at hres
    by_cases h2 : top < 0
    · rw [if_pos h2] at hres
      by_cases hv : bottom ∈ trackIds subs
      · rw [mustValid_of_mem _ _ hv] at hres
        simp only [Except.ok.injEq, Prod.mk.injEq] at hres
        obtain ⟨rfl, rfl⟩ := hres
        obtain ⟨d, hd⟩ := exists_other_of_nodup bottom subs hlen hnd
        have hs := find_other_spec bottom subs d hd
        rw [firstOther_eq_find, hd]
        exact ⟨hs.1, hv, fun _ => hs.2⟩
      · rw [mustValid_error _ _ hv] at hres
        simp at hres
    · rw [if_neg h2] at hres
      by_cases h3 : bottom < 0
      · rw [if_pos h3] at hres
        by_cases hv : top ∈ trackIds subs
        · rw [mustValid_of_mem _ _ hv] at hres
          simp only [Except.ok.injEq, Prod.mk.injEq] at hres
          obtain ⟨rfl, rfl⟩ := hres
          obtain ⟨d, hd⟩ := exists_other_of_nodup top subs hlen hnd
          have hs := find_other_spec top subs d hd
          rw [firstOther_eq_find, hd]
          exact ⟨hv, hs.1, fun _ => hs.2.symm⟩
        · rw [mustValid_error _ _ hv] at hres
          simp at hres
      · rw [if_neg h3] at hres
        by_cases hb : bottom ∈ trackIds subs
        · rw [mustValid_of_mem _ _ hb] at hres
          by_cases ht : top ∈ trackIds subs
          · rw [mustValid_of_mem _ _ ht] at hres
            simp only [Except.ok.injEq, Prod.mk.injEq] at hres
            obtain ⟨rfl, rfl⟩ := hres
            exact ⟨ht, hb, fun h => absurd h (by omega)⟩
          · rw [mustValid_error _ _ ht] at hres
            simp at hres
        · rw [mustValid_error _ _ hb] at hres
          simp at hres

theorem resolveTracks_sound_witness :
    resolveTracks [⟨2, []⟩, ⟨5, []⟩, ⟨7, []⟩] (-1) 5 = .ok (2, 5) ∧
      ((2 : Int) ∈ trackIds [⟨2, []⟩, ⟨5, []⟩, ⟨7, []⟩] ∧
        (5 : Int) ∈ trackIds [⟨2, []⟩, ⟨5, []⟩, ⟨7, []⟩] ∧
        (((-1 : Int) < 0 ∨ (5 : Int) < 0) → (2 : Int) ≠ 5)) :=
  ⟨by decide,
    resolveTracks_sound [⟨2, []⟩, ⟨5, []⟩, ⟨7, []⟩] (-1) 5 2 5 (by decide) (by decide) (by decide)⟩

/-- Claim C3, as stated, fails on the code.  With descriptors of ids `[5, 5]`, top
unspecified and bottom `5`, the list has two entries and `5` is the id of one, yet
resolution succeeds with top still `-1`: top is not the id of a descriptor whose
id differs from bottom. -/
theorem resolveTracks_one_unspecified_counterexample :
    2 ≤ ([⟨5, []⟩, ⟨5, []⟩] : List subtitleInfo).length ∧
      (5 : Int) ∈ trackIds [⟨5, []⟩, ⟨5, []⟩] ∧
      resolveTracks [⟨5, []⟩, ⟨5, []⟩] (-1) 5 = .ok (-1, 5) ∧
      ¬ ∃ d ∈ ([⟨5, []⟩, ⟨5, []⟩] : List subtitleInfo),
          d.Track ≠ 5 ∧ resolveTracks [⟨5, []⟩, ⟨5, []⟩] (-1) 5 = .ok (d.Track, 5) := by
  refine ⟨by decide, by decide, by decide, ?_⟩
  rintro ⟨d, hd, hne, -⟩
  simp only [List.mem_cons, List.mem_singleton, List.not_mem_nil, or_false, or_self] at hd
  subst hd
  exact hne rfl

/-- Claim C3 (amended).  With top unspecified and bottom explicit, resolution fails
with `invalidTrack bottom` when no descriptor has the id `bottom`; otherwise it
keeps bottom and sets top to the id of the first descriptor, in list order, whose
id differs from bottom when there is one, and leaves top as requested when every
descriptor has the id `bottom`.  On a list of at least two pairwise distinct ids
such a descriptor exists.  The case of bottom unspecified and top explicit is the
same with the roles swapped. -/
theorem resolveTracks_one_unspecified (subs : List subtitleInfo) (top bottom : Int)
    (hlen : 2 ≤ subs.length) :
    (top < 0 → 0 ≤ bottom →
      (bottom ∉ trackIds subs →
        resolveTracks subs top bottom = .error (.invalidTrack bottom)) ∧
      (bottom ∈ trackIds subs →
        (∀ d, subs.find? (fun s => decide (s.Track ≠ bottom)) = some d →
          resolveTracks subs top bottom = .ok (d.Track, bottom)) ∧
        (subs.find? (fun s => decide (s.Track ≠ bottom)) = none →
          resolveTracks subs top bottom = .ok (top, bottom)) ∧
        ((trackIds subs).Nodup →
          ∃ d, subs.find? (fun s => decide (s.Track ≠ bottom)) = some d))) ∧
    (0 ≤ top → bottom < 0 →
      (top ∉ trackIds subs →
        resolveTracks subs top bottom = .error (.invalidTrack top)) ∧
      (top ∈ trackIds subs →
        (∀ d, subs.find? (fun s => decide (s.Track ≠ top)) = some d →
          resolveTracks subs top bottom = .ok (top, d.Track)) ∧
        (subs.find? (fun s => decide (s.Track ≠ top)) = none →
          resolveTracks subs top bottom = .ok (top, bottom)) ∧
        ((trackIds subs).Nodup →
          ∃ d, subs.find? (fun s => decide (s.Track ≠ top)) = some d))) := by
  constructor
  · intro ht hb
    have h1 : ¬ (top < 0 ∧ bottom < 0) := by omega
    refine ⟨fun hv => ?_, fun hv => ⟨fun d hd => ?_, fun hd => ?_, fun hnd => ?_⟩⟩
    · simp only [resolveTracks, if_neg h1, if_pos ht, mustValid_error _ _ hv]
    · simp only [resolveTracks, if_neg h1, if_pos ht, mustValid_of_mem _ _ hv,
        firstOther_eq_find, hd]
    · simp only [resolveTracks, if_neg h1, if_pos ht, mustValid_of_mem _ _ hv,
        firstOther_eq_find, hd]
    · exact exists_other_of_nodup bottom subs hlen hnd
  · intro ht hb
    have h1 : ¬ (top < 0 ∧ bottom < 0) := by omega
    have h2 : ¬ top < 0 := by omega
    refine ⟨fun hv => ?_, fun hv => ⟨fun d hd => ?_, fun hd => ?_, fun hnd => ?_⟩⟩
    · simp only [resolveTracks, if_neg h1, if_neg h2, if_pos hb, mustValid_error _ _ hv]
    · simp only [resolveTracks, if_neg h1, if_neg h2, if_pos hb, mustValid_of_mem _ _ hv,
        firstOther_eq_find, hd]
    · simp only [resolveTracks, if_neg h1, if_neg h2, if_pos hb, mustValid_of_mem _ _ hv,
        firstOther_eq_find, hd]
    · exact exists_other_of_nodup top subs hlen hnd

theorem resolveTracks_one_unspecified_witness :
    resolveTracks [⟨2, []⟩, ⟨5, []⟩, ⟨7, []⟩] (-1) 5 = .ok (2, 5) :=
  ((((resolveTracks_one_unspecified [⟨2, []⟩, ⟨5, []⟩, ⟨7, []⟩] (-1) 5 (by decide)).1
    (by decide) (by decide)).2 (by decide)).1 ⟨2, []⟩ (by decide))

/-- Claim C4.  With both roles unspecified, on every descriptor list of at least
two entries resolution succeeds with top the id of the first descriptor and
bottom the id of the second. -/
theorem resolveTracks_both_unspecified (subs : List subtitleInfo) (top bottom : Int)
    (hlen : 2 ≤ subs.length) (ht : top < 0) (hb : bottom < 0) :
    resolveTracks subs top bottom = .ok (subs[0].Track, subs[1].Track) := by
  match subs, hlen with
  | s0 :: s1 :: rest, _ =>
    simp [resolveTracks, ht, hb]

theorem resolveTracks_both_unspecified_witness :
    resolveTracks [⟨2, []⟩, ⟨5, []⟩, ⟨7, []⟩] (-1) (-1) = .ok (2, 5) :=
  resolveTracks_both_unspecified [⟨2, []⟩, ⟨5, []⟩, ⟨7, []⟩] (-1) (-1)
    (by decide) (by decide) (by decide)

/-- Claim C5.  With both roles explicit, resolution succeeds exactly when both ids
occur in the list, and then returns the pair unchanged (also when top equals
bottom); otherwise it fails with `invalidTrack n` for an `n` among the two
requested ids that is missing from the list (bottom is checked first). -/
theorem resolveTracks_both_explicit (subs : List subtitleInfo) (top bottom : Int)
    (ht : 0 ≤ top) (hb : 0 ≤ bottom) :
    ((∃ r, resolveTracks subs top bottom = .ok r) ↔
        (top ∈ trackIds subs ∧ bottom ∈ trackIds subs)) ∧
      (top ∈ trackIds subs → bottom ∈ trackIds subs →
        resolveTracks subs top bottom = .ok (top, bottom)) ∧
      (bottom ∉ trackIds subs →
        resolveTracks subs top bottom = .error (.invalidTrack bottom)) ∧
      (bottom ∈ trackIds subs → top ∉ trackIds subs →
        resolveTracks subs top bottom = .error (.invalidTrack top)) := by
  have h1 : ¬ (top < 0 ∧ bottom < 0) := by omega
  have h2 : ¬ top < 0 := by omega
  have h3 : ¬ bottom < 0 := by omega
  have hok : top ∈ trackIds subs → bottom ∈ trackIds subs →
      resolveTracks subs top bottom = .ok (top, bottom) := by
    intro hvt hvb
    simp only [resolveTracks, if_neg h1, if_neg h2, if_neg h3, mustValid_of_mem _ _ hvt,
      mustValid_of_mem _ _ hvb]
  have hbot : bottom ∉ trackIds subs →
      resolveTracks subs top bottom = .error (.invalidTrack bottom) := by
    intro hvb
    simp only [resolveTracks, if_neg h1, if_neg h2, if_neg h3, mustValid_error _ _ hvb]
  have htop : bottom ∈ trackIds subs → top ∉ trackIds subs →
      resolveTracks subs top bottom = .error (.invalidTrack top) := by
    intro hvb hvt
    simp only [resolveTracks, if_neg h1, if_neg h2, if_neg h3, mustValid_of_mem _ _ hvb,
      mustValid_error _ _ hvt]
  refine ⟨⟨fun hr => ?_, fun h => ⟨_, hok h.1 h.2⟩⟩, hok, hbot, htop⟩
  obtain ⟨r, hr⟩ := hr
  by_cases hvb : bottom ∈ trackIds subs
  · by_cases hvt : top ∈ trackIds subs
    · exact ⟨hvt, hvb⟩
    · rw [htop hvb hvt] at hr
      simp at hr
  · rw [hbot hvb] at hr
    simp at hr

theorem resolveTracks_both_explicit_witness :
    resolveTracks [⟨2, []⟩, ⟨5, []⟩, ⟨7, []⟩] 9 5 = .error (.invalidTrack 9) :=
  (resolveTracks_both_explicit [⟨2, []⟩, ⟨5, []⟩, ⟨7, []⟩] 9 5 (by decide) (by decide)).2.2.2
    (by decide) (by decide)

/-! ## The join command -/

theorem scanLoop_error (fuel : Nat) (input : GoString) (subs : List subtitleInfo) (e : Error)
    (h : scanLoop fuel input subs = .error e) :
    e = .scannerTooLong ∨ ∃ line, e = .malformedLine line ∨ e = .malformedNumber line := by
  induction fuel generalizing input subs with
  | zero =>
    simp only [scanLoop, Except.error.injEq] at h
    exact Or.inl h.symm
  | succ fuel ih =>
    unfold scanLoop at h
    split at h
    · simp at h
    · simp only [Except.error.injEq] at h
      exact Or.inl h.symm
    · dsimp only at h
      split_ifs at h
      · simp only [Except.error.injEq] at h
        exact Or.inr ⟨_, Or.inl h.symm⟩
      · split at h
        · simp only [Except.error.injEq] at h
          exact Or.inr ⟨_, Or.inr h.symm⟩
        · exact ih _ _ h
      · exact ih _ _ h

theorem extractSubtitleInfo_error (out : Option GoString) (e : Error)
    (h : extractSubtitleInfo out = .error e) :
    (∀ n, e ≠ .lessThanTwo n) ∧ (∀ f, e ≠ .alreadyExists f) := by
  unfold extractSubtitleInfo at h
  split at h
  · simp only [Except.error.injEq] at h
    subst h
    simp
  · rcases scanLoop_error _ _ _ _ h with h | ⟨l, h | h⟩ <;> simp [h]

theorem resolveTracks_error (subs : List subtitleInfo) (top bottom : Int) (e : Error)
    (hlen : 2 ≤ subs.length) (h : resolveTracks subs top bottom = .error e) :
    ∃ n, e = .invalidTrack n := by
  unfold resolveTracks at h
  match subs, hlen with
  | s0 :: s1 :: rest, _ =>
    have hv : ∀ (num : Int) (e : Error),
        mustValidTrackNumber num (s0 :: s1 :: rest) = .error e → e = .invalidTrack num := by
      intro num e he
      by_cases hm : num ∈ trackIds (s0 :: s1 :: rest)
      · rw [mustValid_of_mem _ _ hm] at he
        simp at he
      · rw [mustValid_error _ _ hm] at he
        simpa using he.symm
    simp only [List.getElem?_cons_zero, List.getElem?_cons_succ] at h
    split at h
    · simp at h
    · split at h
      · split at h
        · rename_i e1 he1
          simp only [Except.error.injEq] at h
          exact ⟨_, h ▸ hv _ _ he1⟩
        · simp at h
      · split at h
        · split at h
          · rename_i e1 he1
            simp only [Except.error.injEq] at h
            exact ⟨_, h ▸ hv _ _ he1⟩
          · simp at h
        · split at h
          · rename_i e1 he1
            simp only [Except.error.injEq] at h
            exact ⟨_, h ▸ hv _ _ he1⟩
          · split at h
            · rename_i e1 he1
              simp only [Except.error.injEq] at h
              exact ⟨_, h ▸ hv _ _ he1⟩
            · simp at h

theorem getAssFile_error (w : World) (outFile : GoString) (e : Error)
    (h : (getAssFile w outFile).2 = .error e) :
    e = .formFailed ∨ e = .requestFailed ∨ (∃ c, e = .badStatus c) ∨ e = .createFailed ∨
      e = .copyFailed := by
  unfold getAssFile at h
  split at h
  · simp at h; simp [← h]
  · split at h
    · simp at h; simp [← h]
    · split at h
      · simp at h; simp [← h]
      · split at h
        · simp at h; simp [← h]
        · split at h
          · simp at h; simp [← h]
          · simp at h

theorem extractAndUpload_error (w : World) (filePath : GoString) (t b : Int) (e : Error)
    (h : (extractAndUpload w filePath t b).2 = .error e) :
    (∀ n, e ≠ .lessThanTwo n) ∧ e ≠ .indexOutOfRange := by
  unfold extractAndUpload at h
  dsimp only at h
  split_ifs at h
  any_goals (simp only [Except.error.injEq] at h; subst h; simp)
  split at h
  · rename_i a6 e1 he1
    simp only [Except.error.injEq] at h
    subst h
    have := getAssFile_error w _ e1 (by rw [he1])
    rcases this with h | h | ⟨c, h⟩ | h | h <;> simp [h]
  · simp at h

/-- Claim C10.  When discovery returns a descriptor list of length 0 or 1, `join`
fails with `lessThanTwo` right after the demuxer call: nothing else is performed,
whatever top and bottom were requested.  When the list has at least two entries
this error is never raised.  In no case does track resolution index past the end
of the list. -/
theorem join_insufficient_tracks (w : World) (filePath : GoString) (top bottom : Int)
    (subs : List subtitleInfo)
    (hdisc : extractSubtitleInfo (w.mkvmergeOut filePath) = .ok subs) :
    (subs.length < 2 →
      join w filePath top bottom =
        ([.mkvmerge filePath], .error (.lessThanTwo subs.length))) ∧
    (2 ≤ subs.length → ∀ n, (join w filePath top bottom).2 ≠ .error (.lessThanTwo n)) ∧
    (join w filePath top bottom).2 ≠ .error .indexOutOfRange := by
  have key : ∀ e, 2 ≤ subs.length → (join w filePath top bottom).2 = .error e →
      (∀ n, e ≠ .lessThanTwo n) ∧ e ≠ .indexOutOfRange := by
    intro e hlen he
    have hlt : ¬ subs.length < 2 := by omega
    simp only [join, hdisc, joinTracks, if_neg hlt] at he
    split at he
    · rename_i e1 he1
      simp only [Except.error.injEq] at he
      obtain ⟨n, hn⟩ := resolveTracks_error subs top bottom e1 hlen he1
      subst he
      simp [hn]
    · exact extractAndUpload_error w filePath _ _ e he
  refine ⟨fun hlt => ?_, fun hlen n hn => (key _ hlen hn).1 n rfl, fun hn => ?_⟩
  · simp [join, hdisc, joinTracks, hlt]
  · by_cases hlt : subs.length < 2
    · simp [join, hdisc, joinTracks, hlt] at hn
    · exact (key _ (by omega) hn).2 rfl

theorem join_insufficient_tracks_witness :
    join (cooperativeWorld oneSubtitle false) (ascii "a.mkv") (-1) 2 =
      ([.mkvmerge (ascii "a.mkv")], .error (.lessThanTwo 1)) :=
  (join_insufficient_tracks (cooperativeWorld oneSubtitle false) (ascii "a.mkv") (-1) 2
    [⟨2, ascii "Track ID 2: subtitles (SubRip/SRT)"⟩] (by decide)).1 (by decide)

theorem extractAndUpload_dest_exists (w : World) (filePath : GoString) (t b : Int)
    (hex : w.statOk (filePath ++ ascii ".ass") = true) :
    Action.httpPost ∉ (extractAndUpload w filePath t b).1 ∧
    (∃ e, (extractAndUpload w filePath t b).2 = .error e) ∧
    ((extractAndUpload w filePath t b).2 = .error (.alreadyExists (filePath ++ ascii ".ass")) →
      (extractAndUpload w filePath t b).1 =
        [.mkvextract filePath t w.topFile, .mkvextract filePath b w.bottomFile,
          .openFile w.topFile, .openFile w.bottomFile, .stat (filePath ++ ascii ".ass")]) := by
  unfold extractAndUpload
  dsimp only
  split_ifs <;> simp

theorem extractAndUpload_reaches_check (w : World) (filePath : GoString) (t b : Int)
    (hex : w.statOk (filePath ++ ascii ".ass") = true)
    (h1 : w.mkvextractOk filePath t w.topFile = true)
    (h2 : w.mkvextractOk filePath b w.bottomFile = true)
    (h3 : w.openOk w.topFile = true) (h4 : w.openOk w.bottomFile = true) :
    extractAndUpload w filePath t b =
      ([.mkvextract filePath t w.topFile, .mkvextract filePath b w.bottomFile,
          .openFile w.topFile, .openFile w.bottomFile, .stat (filePath ++ ascii ".ass")],
        .error (.alreadyExists (filePath ++ ascii ".ass"))) := by
  simp [extractAndUpload, hex, h1, h2, h3, h4]

set_option maxRecDepth 8000 in
/-- Claim C9, as stated, fails on the code.  In an environment where the demuxer
reports two subtitle tracks, every external step succeeds and the destination
`a.mkv.ass` exists, `join` ends with `alreadyExists`, and by then it has invoked
the extractor for track 2 and for track 3: the `os.Stat` check comes after both
extractions. -/
theorem join_dest_exists_counterexample :
    (cooperativeWorld twoSubtitles true).statOk (ascii "a.mkv" ++ ascii ".ass") = true ∧
    join (cooperativeWorld twoSubtitles true) (ascii "a.mkv") (-1) (-1) =
      ([.mkvmerge (ascii "a.mkv"),
        .mkvextract (ascii "a.mkv") 2 (ascii "/tmp/mkvdualsub_top.srt"),
        .mkvextract (ascii "a.mkv") 3 (ascii "/tmp/mkvdualsub_bottom.srt"),
        .openFile (ascii "/tmp/mkvdualsub_top.srt"),
        .openFile (ascii "/tmp/mkvdualsub_bottom.srt"),
        .stat (ascii "a.mkv.ass")],
       .error (.alreadyExists (ascii "a.mkv.ass"))) ∧
    Action.mkvextract (ascii "a.mkv") 2 (ascii "/tmp/mkvdualsub_top.srt") ∈
      (join (cooperativeWorld twoSubtitles true) (ascii "a.mkv") (-1) (-1)).1 := by
  refine ⟨by decide, by decide, by decide⟩

/-- Claim C9 (amended).  In every run of `join` in which the destination
`<file>.ass` exists, `join` fails and performs no network call.  It fails with
`alreadyExists` only after the demuxer call, both extractor invocations, both
opens and the `os.Stat` check, in this order; and it does fail with
`alreadyExists` whenever discovery, the count check, track resolution, both
extractions and both opens succeed. -/
theorem join_dest_exists (w : World) (filePath : GoString) (top bottom : Int)
    (hex : w.statOk (filePath ++ ascii ".ass") = true) :
    Action.httpPost ∉ (join w filePath top bottom).1 ∧
    (∃ e, (join w filePath top bottom).2 = .error e) ∧
    ((join w filePath top bottom).2 = .error (.alreadyExists (filePath ++ ascii ".ass")) →
      ∃ t b, (join w filePath top bottom).1 =
        [.mkvmerge filePath, .mkvextract filePath t w.topFile,
          .mkvextract filePath b w.bottomFile, .openFile w.topFile,
          .openFile w.bottomFile, .stat (filePath ++ ascii ".ass")]) ∧
    (∀ subs t b, extractSubtitleInfo (w.mkvmergeOut filePath) = .ok subs →
      2 ≤ subs.length → resolveTracks subs top bottom = .ok (t, b) →
      w.mkvextractOk filePath t w.topFile = true →
      w.mkvextractOk filePath b w.bottomFile = true →
      w.openOk w.topFile = true → w.openOk w.bottomFile = true →
      join w filePath top bottom =
        ([.mkvmerge filePath, .mkvextract filePath t w.topFile,
          .mkvextract filePath b w.bottomFile, .openFile w.topFile,
          .openFile w.bottomFile, .stat (filePath ++ ascii ".ass")],
         .error (.alreadyExists (filePath ++ ascii ".ass")))) := by
  refine ⟨?_, ?_, ?_, ?_⟩
  · unfold join
    split
    · simp
    · rename_i subs hdisc
      simp only [joinTracks]
      split_ifs
      · simp
      · split
        · simp
        · simpa using (extractAndUpload_dest_exists w filePath _ _ hex).1
  · unfold join
    split
    · exact ⟨_, rfl⟩
    · simp only [joinTracks]
      split_ifs
      · exact ⟨_, rfl⟩
      · split
        · exact ⟨_, rfl⟩
        · exact (extractAndUpload_dest_exists w filePath _ _ hex).2.1
  · unfold join
    split
    · rename_i e hdisc
      intro h
      simp only [Except.error.injEq] at h
      subst h
      exact absurd rfl ((extractSubtitleInfo_error _ _ hdisc).2 _)
    · simp only [joinTracks]
      split_ifs
      · simp
      · split
        · rename_i e he
          intro h
          simp only [Except.error.injEq] at h
          subst h
          obtain ⟨n, hn⟩ := resolveTracks_error _ _ _ _ (by omega) he
          simp at hn
        · rename_i t b hres
          intro h
          exact ⟨t, b, by rw [(extractAndUpload_dest_exists w filePath t b hex).2.2 h]⟩
  · intro subs t b hdisc hlen hres h1 h2 h3 h4
    have hlt : ¬ subs.length < 2 := by omega
    simp only [join, hdisc, joinTracks, if_neg hlt, hres,
      extractAndUpload_reaches_check w filePath t b hex h1 h2 h3 h4]

theorem join_dest_exists_witness :
    Action.httpPost ∉ (join (cooperativeWorld twoSubtitles true) (ascii "a.mkv") (-1) (-1)).1 :=
  (join_dest_exists (cooperativeWorld twoSubtitles true) (ascii "a.mkv") (-1) (-1)
    (by decide)).1

/-! ## The scanner -/

theorem indexByte_eq_none (c : Nat) (s : GoString) :
    bufio.indexByte c s = none ↔ c ∉ s := by
  induction s with
  | nil => simp [bufio.indexByte]
  | cons b bs ih =>
    by_cases h : b = c
    · simp [bufio.indexByte, h]
    · have h2 : ¬ c = b := fun e => h e.symm
      simp [bufio.indexByte, h, h2, ih]

theorem indexByte_some (c : Nat) (s : GoString) (i : Nat)
    (h : bufio.indexByte c s = some i) :
    i < s.length ∧ c ∉ s.take i ∧ s = s.take i ++ c :: s.drop (i + 1) := by
  induction s generalizing i with
  | nil => simp [bufio.indexByte] at h
  | cons b bs ih =>
    by_cases hb : b = c
    · simp only [bufio.indexByte, hb, if_true, Option.some.injEq] at h
      subst h
      simp [hb]
    · simp only [bufio.indexByte, hb, if_false, Option.map_eq_some'] at h
      obtain ⟨j, hj, rfl⟩ := h
      obtain ⟨h1, h2, h3⟩ := ih j hj
      have hc : ¬ c = b := fun e => hb e.symm
      refine ⟨by simpa using h1, by simp [hc, h2], ?_⟩
      simp only [List.take_succ_cons, List.drop_succ_cons, List.cons_append, List.cons.injEq,
        true_and]
      exact h3

theorem indexByte_append (c : Nat) (a b : GoString) (h : c ∉ a) :
    bufio.indexByte c (a ++ c :: b) = some a.length := by
  induction a with
  | nil => simp [bufio.indexByte]
  | cons x xs ih =>
    simp only [List.mem_cons, not_or] at h
    have hx : ¬ x = c := fun e => h.1 e.symm
    simp [bufio.indexByte, hx, ih h.2]

theorem rawLines_append (a b : GoString) (h : 10 ∉ a) :
    rawLines (a ++ 10 :: b) = a :: rawLines b := by
  induction a with
  | nil => simp [rawLines]
  | cons x xs ih =>
    simp only [List.mem_cons, not_or] at h
    have hx : ¬ x = 10 := fun e => h.1 e.symm
    simp [rawLines, hx, ih h.2]

theorem rawLines_single (a : GoString) (h : 10 ∉ a) (hne : a ≠ []) : rawLines a = [a] := by
  induction a with
  | nil => exact absurd rfl hne
  | cons x xs ih =>
    simp only [List.mem_cons, not_or] at h
    have hx : ¬ x = 10 := fun e => h.1 e.symm
    by_cases hxs : xs = []
    · subst hxs
      simp [rawLines, hx]
    · simp [rawLines, hx, ih h.2 hxs]

theorem maxScanTokenSize_pos : 0 < bufio.MaxScanTokenSize := by decide

theorem Scan_nil : bufio.Scan [] = .eof := by
  have h := maxScanTokenSize_pos
  simp [bufio.Scan, bufio.ScanLines, h]

/-- One `Scan` on a non-empty input consumes exactly the first raw line: it returns
it without its trailing `\r` when it is shorter than `MaxScanTokenSize`, and
stops with `ErrTooLong` otherwise. -/
theorem Scan_cons (input : GoString) (hne : input ≠ []) :
    ∃ raw rest, rawLines input = raw :: rawLines rest ∧ rest.length < input.length ∧
      bufio.Scan input =
        if raw.length < bufio.MaxScanTokenSize then .token (bufio.dropCR raw) rest
        else .errTooLong := by
  have hpos : 0 < input.length := List.length_pos.2 hne
  cases hidx : bufio.indexByte 10 input with
  | none =>
    have hnot : 10 ∉ input := (indexByte_eq_none 10 input).1 hidx
    refine ⟨input, [], ?_, by simpa using hpos, ?_⟩
    · simpa [rawLines] using rawLines_single input hnot hne
    · have hwin : bufio.indexByte 10 (input.take bufio.MaxScanTokenSize) = none :=
        (indexByte_eq_none 10 _).2 (fun hm => hnot (List.mem_of_mem_take hm))
      by_cases hlen : input.length < bufio.MaxScanTokenSize
      · have htake : input.take bufio.MaxScanTokenSize = input :=
          List.take_of_length_le (by omega)
        simp [bufio.Scan, bufio.ScanLines, hlen, htake, hidx, hne]
      · have htne : input.take bufio.MaxScanTokenSize ≠ [] := by
          intro h
          have := congrArg List.length h
          simp only [List.length_take, List.length_nil] at this
          have := maxScanTokenSize_pos
          omega
        simp [bufio.Scan, bufio.ScanLines, hlen, hwin]
  | some i =>
    obtain ⟨hi, hnot, hsplit⟩ := indexByte_some 10 input i hidx
    refine ⟨input.take i, input.drop (i + 1), ?_, ?_, ?_⟩
    · conv_lhs => rw [hsplit]
      exact rawLines_append _ _ hnot
    · simp only [List.length_drop]
      omega
    · have hlt : (input.take i).length = i := by
        simp only [List.length_take]
        omega
      rw [hlt]
      by_cases hwin : i < bufio.MaxScanTokenSize
      · have h1 : input.take bufio.MaxScanTokenSize =
            input.take i ++ 10 :: (input.drop (i + 1)).take (bufio.MaxScanTokenSize - (i + 1)) := by
          conv_lhs => rw [hsplit]
          rw [List.take_append_eq_append_take, hlt]
          have e1 : (input.take i).take bufio.MaxScanTokenSize = input.take i := by
            apply List.take_of_length_le
            omega
          have e2 : bufio.MaxScanTokenSize - i = (bufio.MaxScanTokenSize - (i + 1)) + 1 := by
            omega
          rw [e1, e2, List.take_succ_cons]
        have h2 := indexByte_append 10 (input.take i)
          ((input.drop (i + 1)).take (bufio.MaxScanTokenSize - (i + 1))) hnot
        rw [hlt] at h2
        have h3 : (input.take bufio.MaxScanTokenSize).take i = input.take i := by
          rw [List.take_take]
          congr 1
          omega
        have h4 : input.take bufio.MaxScanTokenSize ≠ [] := by
          rw [h1]
          simp
        simp only [bufio.Scan, bufio.ScanLines, h4, and_false, if_false, ← h1, h1 ▸ h2, h3,
          if_pos hwin]
      · have hlen : ¬ input.length < bufio.MaxScanTokenSize := by omega
        have hw : bufio.indexByte 10 (input.take bufio.MaxScanTokenSize) = none := by
          apply (indexByte_eq_none 10 _).2
          intro hm
          apply hnot
          have hpre : input.take bufio.MaxScanTokenSize =
              (input.take i).take bufio.MaxScanTokenSize := by
            rw [List.take_take]
            congr 1
            omega
          rw [hpre] at hm
          exact List.mem_of_mem_take hm
        simp [bufio.Scan, bufio.ScanLines, hlen, hw, hwin]

/-- The scan loop of `extractSubtitleInfo` with enough fuel is the line-by-line
processing of the raw lines of its input. -/
theorem scanLoop_eq_processLines (fuel : Nat) (input : GoString) (subs : List subtitleInfo)
    (h : input.length < fuel) :
    scanLoop fuel input subs = processLines (rawLines input) subs := by
  induction fuel generalizing input subs with
  | zero => omega
  | succ fuel ih =>
    by_cases hne : input = []
    · subst hne
      simp [scanLoop, Scan_nil, rawLines, processLines]
    · obtain ⟨raw, rest, hraw, hlen, hscan⟩ := Scan_cons input hne
      have hrest : rest.length < fuel := by omega
      rw [hraw, scanLoop, processLines, hscan]
      by_cases hl : raw.length < bufio.MaxScanTokenSize
      · have hl2 : ¬ bufio.MaxScanTokenSize ≤ raw.length := by omega
        simp only [if_pos hl, if_neg hl2, lineResult]
        by_cases hc : strings.Contains (bufio.dropCR raw) subtitlesLit = true
        · simp only [hc, if_true]
          by_cases hi : strings.Index (strings.TrimPrefix (bufio.dropCR raw) trackIdLit)
              colonLit ≤ 0
          · simp only [hi, if_true]
          · simp only [hi, if_false]
            cases hat : strconv.Atoi ((strings.TrimPrefix (bufio.dropCR raw) trackIdLit).take
                (strings.Index (strings.TrimPrefix (bufio.dropCR raw) trackIdLit)
                  colonLit).toNat) with
            | error e => simp only []
            | ok n =>
              simp only []
              exact ih rest _ hrest
        · simp only [hc, Bool.false_eq_true, if_false]
          exact ih rest _ hrest
      · have hl2 : bufio.MaxScanTokenSize ≤ raw.length := by omega
        simp only [if_neg hl, if_pos hl2]

theorem extractSubtitleInfo_eq (out : GoString) :
    extractSubtitleInfo (some out) = processLines (rawLines out) [] := by
  simp only [extractSubtitleInfo]
  exact scanLoop_eq_processLines _ _ _ (by omega)

/-- The fuel of the scan loop is never exhausted: any larger amount gives the same
result. -/
theorem scanLoop_fuel (out : GoString) (k : Nat) :
    scanLoop (out.length + 1 + k) out [] = scanLoop (out.length + 1) out [] := by
  rw [scanLoop_eq_processLines _ _ _ (by omega), scanLoop_eq_processLines _ _ _ (by omega)]

/-! ## strconv.Atoi -/

theorem decimalFrom_cons (n : Nat) (c : Nat) (cs : GoString) :
    decimalFrom n (c :: cs) = decimalFrom (n * 10 + (c - 48)) cs := rfl

theorem le_decimalFrom (n : Nat) (s : GoString) : n ≤ decimalFrom n s := by
  induction s generalizing n with
  | nil => simp [decimalFrom]
  | cons c cs ih =>
    rw [decimalFrom_cons]
    have := ih (n * 10 + (c - 48))
    omega

theorem atoiFastLoop_digits (s : GoString) (m : Nat) (hd : ∀ c ∈ s, 48 ≤ c ∧ c ≤ 57) :
    strconv.atoiFastLoop s (m : Int) = .ok ((decimalFrom m s : Nat) : Int) := by
  induction s generalizing m with
  | nil => simp [strconv.atoiFastLoop, decimalFrom]
  | cons c cs ih =>
    have hc := hd c (List.mem_cons_self c cs)
    have hcs : ∀ x ∈ cs, 48 ≤ x ∧ x ≤ 57 := fun x hx => hd x (List.mem_cons_of_mem c hx)
    have e1 : (c + 256 - 48) % 256 = c - 48 := by omega
    have e2 : ¬ c - 48 > 9 := by omega
    rw [decimalFrom_cons, ← ih (m * 10 + (c - 48)) hcs]
    simp only [strconv.atoiFastLoop, e1, e2, if_false]
    congr 1

theorem parseUintLoop_digits (s : GoString) (n : Nat) (hd : ∀ c ∈ s, 48 ≤ c ∧ c ≤ 57)
    (hv : decimalFrom n s < 2 ^ 63) :
    strconv.parseUintLoop s n = .ok (decimalFrom n s) := by
  induction s generalizing n with
  | nil => simp [strconv.parseUintLoop, decimalFrom]
  | cons c cs ih =>
    have hc := hd c (List.mem_cons_self c cs)
    have hcs : ∀ x ∈ cs, 48 ≤ x ∧ x ≤ 57 := fun x hx => hd x (List.mem_cons_of_mem c hx)
    rw [decimalFrom_cons] at hv ⊢
    have hle := le_decimalFrom (n * 10 + (c - 48)) cs
    have hmax : strconv.maxUint64 = 18446744073709551615 := by decide
    have e0 : ¬ n ≥ strconv.maxUint64 / 10 + 1 := by
      rw [hmax]
      omega
    have e1 : (n * 10 + (c - 48)) % 2 ^ 64 = n * 10 + (c - 48) := by
      apply Nat.mod_eq_of_lt
      omega
    have e2 : ¬ (n * 10 + (c - 48) < n * 10 ∨ n * 10 + (c - 48) > strconv.maxUint64) := by
      rw [hmax]
      omega
    simp only [strconv.parseUintLoop, hc.1, hc.2, and_self, if_true, e0, if_false, e1, e2]
    exact ih _ hcs hv

/-- `Atoi` of a non-empty string of decimal digits whose value fits `int` is that
value. -/
theorem Atoi_digits (s : GoString) (hne : s ≠ []) (hd : ∀ c ∈ s, 48 ≤ c ∧ c ≤ 57)
    (hv : decimalValue s < 2 ^ 63) :
    strconv.Atoi s = .ok ((decimalValue s : Nat) : Int) := by
  match s, hne with
  | c :: cs, _ =>
    have hc := hd c (List.mem_cons_self c cs)
    have h45 : ¬ c = 45 := by omega
    have h43 : ¬ c = 43 := by omega
    by_cases hfast : 0 < (c :: cs).length ∧ (c :: cs).length < 19
    · have := atoiFastLoop_digits (c :: cs) 0 hd
      simp only [Nat.cast_zero] at this
      simp only [strconv.Atoi, hfast, and_self, if_true, h45, h43, or_self, decide_False,
        Bool.false_eq_true, false_and, if_false, this, decimalValue]
    · have hp := parseUintLoop_digits (c :: cs) 0 hd hv
      have hcut : ¬ decimalFrom 0 (c :: cs) ≥ 2 ^ (strconv.IntSize - 1) := by
        have : strconv.IntSize = 64 := rfl
        rw [this]
        simp only [decimalValue] at hv
        omega
      simp only [strconv.Atoi, hfast, if_false, strconv.ParseInt, h45, h43, or_self,
        decide_False, strconv.ParseUint, List.cons_ne_nil, hp, Bool.not_false, true_and, hcut,
        Bool.false_eq_true, false_and, decimalValue]

theorem atoiFastLoop_nonneg (s : GoString) (n m : Int) (hn : 0 ≤ n)
    (h : strconv.atoiFastLoop s n = .ok m) : 0 ≤ m := by
  induction s generalizing n with
  | nil =>
    simp only [strconv.atoiFastLoop, Except.ok.injEq] at h
    omega
  | cons c cs ih =>
    simp only [strconv.atoiFastLoop] at h
    split_ifs at h
    exact ih _ (by positivity) h

/-- A negative result of `Atoi` comes from a leading minus sign. -/
theorem Atoi_neg (s : GoString) (n : Int) (h : strconv.Atoi s = .ok n) (hneg : n < 0) :
    s.head? = some 45 := by
  unfold strconv.Atoi at h
  split_ifs at h with hfast
  · match s with
    | [] => simp at h
    | c :: cs =>
      by_cases hc : c = 45
      · simp [hc]
      · exfalso
        dsimp only at h
        simp only [hc, if_false] at h
        split_ifs at h
        all_goals
          split at h
          · simp at h
          · rename_i m hm
            simp only [Except.ok.injEq] at h
            have hm0 := atoiFastLoop_nonneg _ 0 m (le_refl 0) hm
            omega
  · match s with
    | [] => simp [strconv.ParseInt] at h
    | c :: cs =>
      by_cases hc : c = 45
      · simp [hc]
      · exfalso
        simp only [strconv.ParseInt, hc, decide_False, Bool.false_eq_true, if_false,
          false_and] at h
        split at h
        · simp at h
        · split_ifs at h
          simp only [Except.ok.injEq] at h
          omega

/-! ## The loop body on one line -/

theorem colonLit_eq : colonLit = [58] := by decide

theorem trackIdLit_length : trackIdLit.length = 9 := by decide

theorem indexOpt_single (c : Nat) (s : GoString) :
    strings.indexOpt [c] s = bufio.indexByte c s := by
  induction s with
  | nil => simp [strings.indexOpt, bufio.indexByte]
  | cons b bs ih =>
    by_cases h : b = c
    · simp [strings.indexOpt, bufio.indexByte, strings.HasPrefix, h]
    · have h2 : ¬ c = b := fun e => h e.symm
      simp [strings.indexOpt, bufio.indexByte, strings.HasPrefix, h, h2, ih]

theorem takeWhile_ne_append (c : Nat) (a b : GoString) (h : c ∉ a) :
    (a ++ c :: b).takeWhile (fun x => decide (x ≠ c)) = a := by
  induction a with
  | nil => simp [List.takeWhile]
  | cons x xs ih =>
    simp only [List.mem_cons, not_or] at h
    have hx : x ≠ c := fun e => h.1 e.symm
    rw [List.cons_append, List.takeWhile_cons, ih h.2]
    simp only [ne_eq, hx, not_false_eq_true, decide_True, if_true]

theorem Index_colon_of_not_mem (s : GoString) (h : 58 ∉ s) :
    strings.Index s colonLit = -1 := by
  have := (indexByte_eq_none 58 s).2 h
  simp [strings.Index, colonLit_eq, indexOpt_single, this]

theorem Index_colon_of_mem (s : GoString) (h : 58 ∈ s) :
    strings.Index s colonLit = ((s.takeWhile (fun c => decide (c ≠ 58))).length : Int) ∧
      s.take (s.takeWhile (fun c => decide (c ≠ 58))).length =
        s.takeWhile (fun c => decide (c ≠ 58)) := by
  cases hidx : bufio.indexByte 58 s with
  | none => exact absurd h ((indexByte_eq_none 58 s).1 hidx)
  | some i =>
    obtain ⟨hi, hnot, hsplit⟩ := indexByte_some 58 s i hidx
    have htw : s.takeWhile (fun c => decide (c ≠ 58)) = s.take i := by
      conv_lhs => rw [hsplit]
      exact takeWhile_ne_append 58 _ _ hnot
    have hlen : (s.take i).length = i := by
      simp only [List.length_take]
      omega
    rw [htw, hlen]
    refine ⟨?_, rfl⟩
    simp [strings.Index, colonLit_eq, indexOpt_single, hidx]

theorem takeWhile_colon_eq_nil (s : GoString) (h : 58 ∈ s) :
    s.takeWhile (fun c => decide (c ≠ 58)) = [] ↔ s.head? = some 58 := by
  match s, h with
  | x :: xs, _ =>
    by_cases hx : x = 58
    · simp [List.takeWhile, hx]
    · simp [List.takeWhile, hx]

/-- The loop body on a line that contains `"subtitles"`, in terms of the text
before the first `:`. -/
theorem lineResult_subtitle (line : GoString)
    (hc : strings.Contains line subtitlesLit = true) :
    lineResult line =
      if 58 ∉ strings.TrimPrefix line trackIdLit ∨
          (strings.TrimPrefix line trackIdLit).head? = some 58 then
        .error (.malformedLine line)
      else
        match strconv.Atoi (numeralOf line) with
        | .error _ => .error (.malformedNumber line)
        | .ok n => .ok (some { Track := n, Info := line }) := by
  simp only [lineResult, hc, if_true]
  by_cases hm : 58 ∈ strings.TrimPrefix line trackIdLit
  · obtain ⟨hidx, htake⟩ := Index_colon_of_mem _ hm
    have hnil := takeWhile_colon_eq_nil _ hm
    rw [hidx]
    by_cases hh : (strings.TrimPrefix line trackIdLit).head? = some 58
    · have h0 := hnil.2 hh
      have hle : (((strings.TrimPrefix line trackIdLit).takeWhile
          (fun c => decide (c ≠ 58))).length : Int) ≤ 0 := by
        rw [h0]
        simp
      rw [if_pos hle, if_pos (Or.inr hh)]
    · have h0 : (strings.TrimPrefix line trackIdLit).takeWhile (fun c => decide (c ≠ 58)) ≠ [] :=
        fun e => hh (hnil.1 e)
      have hpos : 0 < ((strings.TrimPrefix line trackIdLit).takeWhile
          (fun c => decide (c ≠ 58))).length := List.length_pos.2 h0
      have hnle : ¬ (((strings.TrimPrefix line trackIdLit).takeWhile
          (fun c => decide (c ≠ 58))).length : Int) ≤ 0 := by omega
      rw [if_neg hnle, if_neg (not_or.2 ⟨not_not.2 hm, hh⟩), Int.toNat_ofNat, htake]
      rfl
  · have hidx := Index_colon_of_not_mem _ hm
    simp [hidx, hm]

theorem lineResult_not_subtitle (line : GoString)
    (hc : strings.Contains line subtitlesLit = false) : lineResult line = .ok none := by
  simp [lineResult, hc]

/-- On a subtitle line the loop body fails exactly when the line is malformed. -/
theorem lineResult_malformed (line : GoString)
    (hc : strings.Contains line subtitlesLit = true) (hm : MalformedLine line) :
    lineResult line = .error (.malformedLine line) ∨
      lineResult line = .error (.malformedNumber line) := by
  rw [lineResult_subtitle line hc]
  rcases hm with h | h | ⟨e, h⟩
  · left
    simp [h]
  · left
    simp [h]
  · split_ifs
    · left; rfl
    · right
      rw [h]

theorem lineResult_error (line : GoString) (e : Error) (h : lineResult line = .error e) :
    strings.Contains line subtitlesLit = true ∧ MalformedLine line ∧
      (e = .malformedLine line ∨ e = .malformedNumber line) := by
  by_cases hc : strings.Contains line subtitlesLit = true
  · refine ⟨hc, ?_⟩
    rw [lineResult_subtitle line hc] at h
    split_ifs at h with hbad
    · simp only [Except.error.injEq] at h
      refine ⟨?_, Or.inl h.symm⟩
      rcases hbad with hb | hb
      · exact Or.inl hb
      · exact Or.inr (Or.inl hb)
    · split at h
      · rename_i e1 he1
        simp only [Except.error.injEq] at h
        exact ⟨Or.inr (Or.inr ⟨e1, he1⟩), Or.inr h.symm⟩
      · simp at h
  · simp only [Bool.not_eq_true] at hc
    rw [lineResult_not_subtitle line hc] at h
    simp at h

theorem lineResult_some (line : GoString) (d : subtitleInfo)
    (h : lineResult line = .ok (some d)) :
    strings.Contains line subtitlesLit = true ∧ d.Info = line ∧
      58 ∈ strings.TrimPrefix line trackIdLit ∧ numeralOf line ≠ [] ∧
      strconv.Atoi (numeralOf line) = .ok d.Track := by
  by_cases hc : strings.Contains line subtitlesLit = true
  · refine ⟨hc, ?_⟩
    rw [lineResult_subtitle line hc] at h
    split_ifs at h with hbad
    simp only [not_or, not_not] at hbad
    split at h
    · simp at h
    · rename_i n hn
      simp only [Except.ok.injEq, Option.some.injEq] at h
      subst h
      refine ⟨rfl, hbad.1, ?_, hn⟩
      intro hnil
      exact hbad.2 ((takeWhile_colon_eq_nil _ hbad.1).1 hnil)
  · simp only [Bool.not_eq_true] at hc
    rw [lineResult_not_subtitle line hc] at h
    simp at h

theorem lineResult_none (line : GoString) (h : lineResult line = .ok none) :
    strings.Contains line subtitlesLit = false := by
  by_cases hc : strings.Contains line subtitlesLit = true
  · rw [lineResult_subtitle line hc] at h
    split_ifs at h
    split at h <;> simp at h
  · simpa using hc

theorem hasPrefix_drop (line p : GoString) (h : strings.HasPrefix line p = true) :
    strings.TrimPrefix line p = line.drop p.length := by
  simp [strings.TrimPrefix, h]

/-- On a well-formed subtitle line the loop body yields the descriptor the spec
assigns to it. -/
theorem lineResult_wellFormed (line : GoString)
    (hc : strings.Contains line subtitlesLit = true) (hw : WellFormedLine line) :
    lineResult line = .ok (some (descriptorOf line)) := by
  obtain ⟨hpre, hne, hdig, hcolon, hval⟩ := hw
  have htrim := hasPrefix_drop line trackIdLit hpre
  have hnum : numeralOf line = idText line := by
    simp only [numeralOf, idText, htrim]
  rw [lineResult_subtitle line hc, htrim, hnum]
  have hhead : ¬ (line.drop trackIdLit.length).head? = some 58 := by
    intro hh
    apply hne
    simp only [idText]
    exact (takeWhile_colon_eq_nil _ hcolon).2 hh
  simp only [hcolon, not_true_eq_false, hhead, or_self, if_false,
    Atoi_digits (idText line) hne hdig hval, descriptorOf]

theorem split_at_colon (s : GoString) (h : 58 ∈ s) :
    ∃ rest, s = s.takeWhile (fun c => decide (c ≠ 58)) ++ colonLit ++ rest := by
  cases hidx : bufio.indexByte 58 s with
  | none => exact absurd h ((indexByte_eq_none 58 s).1 hidx)
  | some i =>
    obtain ⟨_, hnot, hsplit⟩ := indexByte_some 58 s i hidx
    have htw : s.takeWhile (fun c => decide (c ≠ 58)) = s.take i := by
      conv_lhs => rw [hsplit]
      exact takeWhile_ne_append 58 _ _ hnot
    refine ⟨s.drop (i + 1), ?_⟩
    rw [htw, colonLit_eq, List.append_assoc]
    exact hsplit

/-! ## The loop over all lines -/

theorem processLines_wellFormed (raws : List GoString) (acc : List subtitleInfo)
    (hshort : ∀ raw ∈ raws, raw.length < bufio.MaxScanTokenSize)
    (hwf : ∀ raw ∈ raws, strings.Contains (bufio.dropCR raw) subtitlesLit = true →
      WellFormedLine (bufio.dropCR raw)) :
    processLines raws acc =
      .ok (acc ++ ((raws.map bufio.dropCR).filter
        (fun l => strings.Contains l subtitlesLit)).map descriptorOf) := by
  induction raws generalizing acc with
  | nil => simp [processLines]
  | cons raw rest ih =>
    have hs := hshort raw (List.mem_cons_self raw rest)
    have hs2 : ¬ bufio.MaxScanTokenSize ≤ raw.length := by omega
    have hrest := fun acc2 => ih acc2 (fun r hr => hshort r (List.mem_cons_of_mem raw hr))
      (fun r hr => hwf r (List.mem_cons_of_mem raw hr))
    by_cases hc : strings.Contains (bufio.dropCR raw) subtitlesLit = true
    · have hl := lineResult_wellFormed _ hc (hwf raw (List.mem_cons_self raw rest) hc)
      simp only [processLines, if_neg hs2, hl, hrest, List.map_cons, List.filter_cons, hc,
        if_true, List.append_assoc, List.singleton_append]
    · simp only [Bool.not_eq_true] at hc
      have hl := lineResult_not_subtitle _ hc
      simp only [processLines, if_neg hs2, hl, hrest, List.map_cons, List.filter_cons, hc,
        Bool.false_eq_true, if_false]

theorem processLines_ok (raws : List GoString) (acc subs : List subtitleInfo)
    (h : processLines raws acc = .ok subs) :
    (∀ raw ∈ raws, raw.length < bufio.MaxScanTokenSize ∧
        ∃ r, lineResult (bufio.dropCR raw) = .ok r) ∧
      (∀ d ∈ subs, d ∈ acc ∨ ∃ raw ∈ raws, lineResult (bufio.dropCR raw) = .ok (some d)) := by
  induction raws generalizing acc with
  | nil =>
    simp only [processLines, Except.ok.injEq] at h
    subst h
    simp
  | cons raw rest ih =>
    simp only [processLines] at h
    split_ifs at h with hlong
    have hs : raw.length < bufio.MaxScanTokenSize := by omega
    split at h
    · simp at h
    · rename_i hl
      obtain ⟨h1, h2⟩ := ih _ h
      refine ⟨?_, ?_⟩
      · intro r hr
        rcases List.mem_cons.1 hr with rfl | hr
        · exact ⟨hs, _, hl⟩
        · exact h1 r hr
      · intro d hd
        rcases h2 d hd with hd | ⟨r, hr, hlr⟩
        · exact Or.inl hd
        · exact Or.inr ⟨r, List.mem_cons_of_mem raw hr, hlr⟩
    · rename_i d0 hl
      obtain ⟨h1, h2⟩ := ih _ h
      refine ⟨?_, ?_⟩
      · intro r hr
        rcases List.mem_cons.1 hr with rfl | hr
        · exact ⟨hs, _, hl⟩
        · exact h1 r hr
      · intro d hd
        rcases h2 d hd with hd | ⟨r, hr, hlr⟩
        · rcases List.mem_append.1 hd with hd | hd
          · exact Or.inl hd
          · simp only [List.mem_singleton] at hd
            subst hd
            exact Or.inr ⟨raw, List.mem_cons_self raw rest, hl⟩
        · exact Or.inr ⟨r, List.mem_cons_of_mem raw hr, hlr⟩

theorem processLines_malformed (raws : List GoString) (acc : List subtitleInfo)
    (hbad : ∃ raw ∈ raws, strings.Contains (bufio.dropCR raw) subtitlesLit = true ∧
      MalformedLine (bufio.dropCR raw)) :
    (∃ e, processLines raws acc = .error e) ∧
      ((∀ raw ∈ raws, raw.length < bufio.MaxScanTokenSize) →
        ∃ raw ∈ raws, strings.Contains (bufio.dropCR raw) subtitlesLit = true ∧
          MalformedLine (bufio.dropCR raw) ∧
          (processLines raws acc = .error (.malformedLine (bufio.dropCR raw)) ∨
            processLines raws acc = .error (.malformedNumber (bufio.dropCR raw)))) := by
  induction raws generalizing acc with
  | nil =>
    obtain ⟨raw, hraw, -⟩ := hbad
    simp at hraw
  | cons raw rest ih =>
    by_cases hlong : bufio.MaxScanTokenSize ≤ raw.length
    · refine ⟨⟨.scannerTooLong, by simp only [processLines, if_pos hlong]⟩, fun hshort => ?_⟩
      have := hshort raw (List.mem_cons_self raw rest)
      omega
    · cases hl : lineResult (bufio.dropCR raw) with
      | error e =>
        obtain ⟨hc, hm, he⟩ := lineResult_error _ e hl
        have hp : processLines (raw :: rest) acc = .error e := by
          simp only [processLines, if_neg hlong, hl]
        refine ⟨⟨e, hp⟩, fun _ => ⟨raw, List.mem_cons_self raw rest, hc, hm, ?_⟩⟩
        rw [hp]
        rcases he with he | he
        · exact Or.inl (by rw [he])
        · exact Or.inr (by rw [he])
      | ok r =>
        have htail : ∃ raw ∈ rest, strings.Contains (bufio.dropCR raw) subtitlesLit = true ∧
            MalformedLine (bufio.dropCR raw) := by
          obtain ⟨r0, hr0, hc0, hm0⟩ := hbad
          rcases List.mem_cons.1 hr0 with rfl | hr0
          · rcases lineResult_malformed _ hc0 hm0 with h | h <;> rw [hl] at h <;> simp at h
          · exact ⟨r0, hr0, hc0, hm0⟩
        have hp : ∀ acc2, processLines rest acc2 = processLines (raw :: rest) acc →
            (∃ e, processLines (raw :: rest) acc = .error e) ∧
            ((∀ raw2 ∈ raw :: rest, raw2.length < bufio.MaxScanTokenSize) →
              ∃ raw2 ∈ raw :: rest,
                strings.Contains (bufio.dropCR raw2) subtitlesLit = true ∧
                MalformedLine (bufio.dropCR raw2) ∧
                (processLines (raw :: rest) acc = .error (.malformedLine (bufio.dropCR raw2)) ∨
                  processLines (raw :: rest) acc =
                    .error (.malformedNumber (bufio.dropCR raw2)))) := by
          intro acc2 heq
          obtain ⟨h1, h2⟩ := ih acc2 htail
          rw [heq] at h1 h2
          refine ⟨h1, fun hshort => ?_⟩
          obtain ⟨r2, hr2, hrest2⟩ := h2 (fun x hx => hshort x (List.mem_cons_of_mem raw hx))
          exact ⟨r2, List.mem_cons_of_mem raw hr2, hrest2⟩
        cases r with
        | none => exact hp acc (by simp only [processLines, if_neg hlong, hl])
        | some d => exact hp (acc ++ [d]) (by simp only [processLines, if_neg hlong, hl])

/-! ## Track discovery -/

theorem tooLong_first_line (a b : GoString) (h10 : 10 ∉ a)
    (hlen : bufio.MaxScanTokenSize ≤ a.length) :
    extractSubtitleInfo (some (a ++ 10 :: b)) = .error .scannerTooLong := by
  rw [extractSubtitleInfo_eq, rawLines_append a b h10]
  simp only [processLines, if_pos hlen]

theorem tooLong_only_line (a : GoString) (h10 : 10 ∉ a)
    (hlen : bufio.MaxScanTokenSize ≤ a.length) :
    extractSubtitleInfo (some a) = .error .scannerTooLong := by
  have hne : a ≠ [] := by
    intro h
    have h0 := maxScanTokenSize_pos
    rw [h] at hlen
    simp only [List.length_nil] at hlen
    omega
  rw [extractSubtitleInfo_eq, rawLines_single a h10 hne]
  simp only [processLines, if_pos hlen]

theorem Scan_errTooLong (input raw : GoString) (rest : List GoString)
    (hraw : rawLines input = raw :: rest) (hlen : bufio.MaxScanTokenSize ≤ raw.length) :
    bufio.Scan input = .errTooLong := by
  have hne : input ≠ [] := by
    intro h
    rw [h] at hraw
    simp [rawLines] at hraw
  obtain ⟨raw2, rest2, h1, -, h3⟩ := Scan_cons input hne
  rw [hraw] at h1
  have h2 := (List.cons.inj h1).1
  subst h2
  rw [h3, if_neg (by omega)]

theorem not_contains_of_all_a (s : GoString) (h : ∀ c ∈ s, c = 97) :
    strings.Contains s subtitlesLit = false := by
  have hlit : subtitlesLit = 115 :: [117, 98, 116, 105, 116, 108, 101, 115] := by decide
  have hidx : strings.indexOpt subtitlesLit s = none := by
    induction s with
    | nil => simp [strings.indexOpt, hlit]
    | cons c cs ih =>
      have hc := h c (List.mem_cons_self c cs)
      subst hc
      have hcs := ih (fun x hx => h x (List.mem_cons_of_mem 97 hx))
      have hsw : strings.HasPrefix (97 :: cs) subtitlesLit = false := by
        rw [hlit]
        simp [strings.HasPrefix, List.isPrefixOf]
      simp [strings.indexOpt, hsw, hcs]
  simp [strings.Contains, strings.Index, hidx]

theorem mem_dropCR (s : GoString) (c : Nat) (h : c ∈ bufio.dropCR s) : c ∈ s := by
  unfold bufio.dropCR at h
  split_ifs at h
  · exact List.mem_of_mem_dropLast h
  · exact h

/-- Claim C1, as stated, fails on the code.  The output made of 65536 bytes `a`
has no line containing `"subtitles"`, so every such line is well-formed, yet
discovery does not return the empty list: the first `Scan` stops with
`ErrTooLong` because the line does not fit the 64 KiB buffer, and
`extractSubtitleInfo` returns `scanner.Err()`. -/
theorem extractSubtitleInfo_long_line_counterexample :
    (∀ l ∈ lines longLine, strings.Contains l subtitlesLit = false) ∧
      bufio.Scan longLine = .errTooLong ∧
      extractSubtitleInfo (some longLine) = .error .scannerTooLong ∧
      extractSubtitleInfo (some longLine) ≠ .ok [] := by
  have h10 : 10 ∉ longLine := by
    intro h
    have := List.eq_of_mem_replicate h
    omega
  have hlen : bufio.MaxScanTokenSize ≤ longLine.length := by
    rw [longLine, List.length_replicate]
    decide
  have herr := tooLong_only_line longLine h10 hlen
  have hne : longLine ≠ [] := by
    intro h
    rw [h] at hlen
    have h0 := maxScanTokenSize_pos
    simp only [List.length_nil] at hlen
    omega
  have hlines := rawLines_single longLine h10 hne
  refine ⟨?_, Scan_errTooLong longLine longLine [] hlines hlen, herr, by rw [herr]; simp⟩
  intro l hl
  simp only [lines, List.mem_map] at hl
  obtain ⟨raw, hraw, rfl⟩ := hl
  rw [hlines, List.mem_singleton] at hraw
  subst hraw
  apply not_contains_of_all_a
  intro c hc
  exact List.eq_of_mem_replicate (mem_dropCR _ _ hc)

/-- Claim C1 (amended).  For every output in which every line has fewer than 65536
bytes and each line containing `"subtitles"` is well-formed (`Track ID`, a space,
decimal digits denoting a value of `int`, `:`), discovery succeeds and returns
exactly one descriptor per line containing `"subtitles"`, in the order of the
lines; the raw description is the line as scanned (without the line terminator)
and the track id is the number written before the first `:`.  Other lines
contribute nothing, so an output without such a line gives the empty list. -/
theorem extractSubtitleInfo_wellFormed (out : GoString)
    (hshort : ∀ raw ∈ rawLines out, raw.length < bufio.MaxScanTokenSize)
    (hwf : ∀ l ∈ lines out, strings.Contains l subtitlesLit = true → WellFormedLine l) :
    extractSubtitleInfo (some out) =
      .ok (((lines out).filter (fun l => strings.Contains l subtitlesLit)).map
        descriptorOf) := by
  rw [extractSubtitleInfo_eq]
  have := processLines_wellFormed (rawLines out) [] hshort
    (fun raw hraw hc => hwf _ (List.mem_map.2 ⟨raw, hraw, rfl⟩) hc)
  simpa [lines] using this

set_option maxRecDepth 8000 in
theorem extractSubtitleInfo_wellFormed_witness :
    extractSubtitleInfo (some twoSubtitles) =
      .ok [⟨2, ascii "Track ID 2: subtitles (SubRip/SRT)"⟩,
        ⟨3, ascii "Track ID 3: subtitles (SubRip/SRT)"⟩] :=
  (extractSubtitleInfo_wellFormed twoSubtitles (by decide) (by decide)).trans (by decide)

/-- Claim C6, as stated, fails on the code.  The output whose first line has 65536
bytes `a` and whose second line is `Track IDsubtitles` has a malformed subtitle
line, but the first `Scan` stops with `ErrTooLong` and discovery fails with that
error, not with a malformed-output error. -/
theorem extractSubtitleInfo_malformed_counterexample :
    (∃ l ∈ lines longThenMalformed,
        strings.Contains l subtitlesLit = true ∧ MalformedLine l) ∧
      bufio.Scan longThenMalformed = .errTooLong ∧
      extractSubtitleInfo (some longThenMalformed) = .error .scannerTooLong ∧
      ∀ line, extractSubtitleInfo (some longThenMalformed) ≠ .error (.malformedLine line) ∧
        extractSubtitleInfo (some longThenMalformed) ≠ .error (.malformedNumber line) := by
  have h10 : 10 ∉ List.replicate 65536 97 := by
    intro h
    have := List.eq_of_mem_replicate h
    omega
  have hlen : bufio.MaxScanTokenSize ≤ (List.replicate 65536 97).length := by
    rw [List.length_replicate]
    decide
  have herr := tooLong_first_line (List.replicate 65536 97) (ascii "Track IDsubtitles") h10 hlen
  refine ⟨⟨ascii "Track IDsubtitles", ?_, by decide, Or.inl (by decide)⟩,
    Scan_errTooLong _ _ _ (rawLines_append _ _ h10) hlen, herr, ?_⟩
  · simp only [lines, longThenMalformed, rawLines_append _ _ h10, List.map_cons, List.mem_cons]
    right
    exact List.mem_map.2 ⟨ascii "Track IDsubtitles", by decide, by decide⟩
  · intro line
    rw [longThenMalformed, herr]
    simp

/-- Claim C6 (amended).  When some line of the output contains `"subtitles"` and is
malformed, discovery fails and returns no descriptor, whatever well-formed lines
precede or follow.  When moreover every line has fewer than 65536 bytes, the
error is a malformed-output error (`malformedLine` or `malformedNumber`) naming a
malformed subtitle line of the output. -/
theorem extractSubtitleInfo_malformed (out : GoString)
    (hbad : ∃ l ∈ lines out, strings.Contains l subtitlesLit = true ∧ MalformedLine l) :
    (∃ e, extractSubtitleInfo (some out) = .error e) ∧
      ((∀ raw ∈ rawLines out, raw.length < bufio.MaxScanTokenSize) →
        ∃ l ∈ lines out, strings.Contains l subtitlesLit = true ∧ MalformedLine l ∧
          (extractSubtitleInfo (some out) = .error (.malformedLine l) ∨
            extractSubtitleInfo (some out) = .error (.malformedNumber l))) := by
  rw [extractSubtitleInfo_eq]
  obtain ⟨l, hl, hc, hm⟩ := hbad
  obtain ⟨raw, hraw, rfl⟩ := List.mem_map.1 hl
  obtain ⟨h1, h2⟩ := processLines_malformed (rawLines out) [] ⟨raw, hraw, hc, hm⟩
  refine ⟨h1, fun hshort => ?_⟩
  obtain ⟨r, hr, hrc, hrm, hres⟩ := h2 hshort
  exact ⟨bufio.dropCR r, List.mem_map.2 ⟨r, hr, rfl⟩, hrc, hrm, hres⟩

theorem extractSubtitleInfo_malformed_witness :
    (∃ e, extractSubtitleInfo (some (ascii "Track IDsubtitles")) = .error e) ∧
      ∃ l ∈ lines (ascii "Track IDsubtitles"),
        strings.Contains l subtitlesLit = true ∧ MalformedLine l ∧
          (extractSubtitleInfo (some (ascii "Track IDsubtitles")) = .error (.malformedLine l) ∨
            extractSubtitleInfo (some (ascii "Track IDsubtitles")) =
              .error (.malformedNumber l)) :=
  ⟨(extractSubtitleInfo_malformed (ascii "Track IDsubtitles")
      ⟨ascii "Track IDsubtitles", by decide, by decide, Or.inl (by decide)⟩).1,
    (extractSubtitleInfo_malformed (ascii "Track IDsubtitles")
      ⟨ascii "Track IDsubtitles", by decide, by decide, Or.inl (by decide)⟩).2 (by decide)⟩

/-- Claim C7, as stated, fails on the code.  On the output `5: subtitles` discovery
succeeds with one descriptor of id 5, although its only line contains
`"subtitles"` and does not begin with `"Track ID "`: `strings.TrimPrefix` leaves
a line without the prefix unchanged. -/
theorem extractSubtitleInfo_prefix_counterexample :
    extractSubtitleInfo (some (ascii "5: subtitles")) = .ok [⟨5, ascii "5: subtitles"⟩] ∧
      ascii "5: subtitles" ∈ lines (ascii "5: subtitles") ∧
      strings.Contains (ascii "5: subtitles") subtitlesLit = true ∧
      strings.HasPrefix (ascii "5: subtitles") trackIdLit = false := by
  refine ⟨by decide, by decide, by decide, by decide⟩

theorem lineResult_of_accepted (line : GoString) (n : Int)
    (hc : strings.Contains line subtitlesLit = true) (hacc : AcceptedLine line)
    (hat : strconv.Atoi (numeralOf line) = .ok n) :
    lineResult line = .ok (some { Track := n, Info := line }) := by
  obtain ⟨m, rest, hsplit, hne, -⟩ := hacc
  have hcolon : 58 ∈ strings.TrimPrefix line trackIdLit := by
    rw [hsplit, colonLit_eq]
    simp
  have hhead : ¬ (strings.TrimPrefix line trackIdLit).head? = some 58 := by
    intro hh
    apply hne
    exact (takeWhile_colon_eq_nil _ hcolon).2 hh
  rw [lineResult_subtitle line hc, if_neg (not_or.2 ⟨not_not.2 hcolon, hhead⟩), hat]

theorem accepted_of_lineResult (line : GoString) (d : subtitleInfo)
    (h : lineResult line = .ok (some d)) : AcceptedLine line := by
  obtain ⟨-, -, hcolon, hne, hat⟩ := lineResult_some _ d h
  obtain ⟨rest, hrest⟩ := split_at_colon _ hcolon
  exact ⟨d.Track, rest, hrest, hne, hat⟩

theorem processLines_succeeds (raws : List GoString) (acc : List subtitleInfo)
    (h : ∀ raw ∈ raws, raw.length < bufio.MaxScanTokenSize ∧
      ∃ r, lineResult (bufio.dropCR raw) = .ok r) :
    ∃ subs, processLines raws acc = .ok subs := by
  induction raws generalizing acc with
  | nil => exact ⟨acc, rfl⟩
  | cons raw rest ih =>
    obtain ⟨hs, r, hr⟩ := h raw (List.mem_cons_self raw rest)
    have hs2 : ¬ bufio.MaxScanTokenSize ≤ raw.length := by omega
    have htail := fun acc2 => ih acc2 (fun x hx => h x (List.mem_cons_of_mem raw hx))
    cases r with
    | none =>
      obtain ⟨subs, hsubs⟩ := htail acc
      exact ⟨subs, by simp only [processLines, if_neg hs2, hr, hsubs]⟩
    | some d =>
      obtain ⟨subs, hsubs⟩ := htail (acc ++ [d])
      exact ⟨subs, by simp only [processLines, if_neg hs2, hr, hsubs]⟩

theorem processLines_mem (raws : List GoString) (acc subs : List subtitleInfo)
    (h : processLines raws acc = .ok subs) :
    (∀ d ∈ acc, d ∈ subs) ∧
      ∀ raw ∈ raws, ∀ d, lineResult (bufio.dropCR raw) = .ok (some d) → d ∈ subs := by
  induction raws generalizing acc with
  | nil =>
    simp only [processLines, Except.ok.injEq] at h
    subst h
    simp
  | cons raw rest ih =>
    simp only [processLines] at h
    split_ifs at h with hlong
    split at h
    · simp at h
    · rename_i hl
      obtain ⟨h1, h2⟩ := ih _ h
      refine ⟨h1, ?_⟩
      intro r hr d hd
      rcases List.mem_cons.1 hr with rfl | hr
      · rw [hl] at hd
        simp at hd
      · exact h2 r hr d hd
    · rename_i d0 hl
      obtain ⟨h1, h2⟩ := ih _ h
      refine ⟨fun d hd => h1 d (List.mem_append_left _ hd), ?_⟩
      intro r hr d hd
      rcases List.mem_cons.1 hr with rfl | hr
      · rw [hl] at hd
        simp only [Except.ok.injEq, Option.some.injEq] at hd
        subst hd
        exact h1 _ (List.mem_append_right _ (List.mem_singleton_self _))
      · exact h2 r hr d hd

/-- Claim C7 (amended).  The `"Track ID "` prefix is optional.  Discovery succeeds
exactly when every line of the output has fewer than 65536 bytes and every line
that contains `"subtitles"`, once a leading `"Track ID "` is removed if there is
one, is a non-empty numeral accepted by `strconv.Atoi`, then `:`, then the rest
of the line.  On success each such line contributes the descriptor whose id is
the value of its numeral.  A line that does not start with the prefix is left
unchanged by the removal, so a subtitle line without the prefix is accepted when
it has this shape by itself. -/
theorem extractSubtitleInfo_ok_lines (out : GoString) :
    ((∃ subs, extractSubtitleInfo (some out) = .ok subs) ↔
        ((∀ raw ∈ rawLines out, raw.length < bufio.MaxScanTokenSize) ∧
          ∀ l ∈ lines out, strings.Contains l subtitlesLit = true → AcceptedLine l)) ∧
      (∀ subs, extractSubtitleInfo (some out) = .ok subs →
        ∀ l ∈ lines out, strings.Contains l subtitlesLit = true →
          ∀ n, strconv.Atoi (numeralOf l) = .ok n →
            ({ Track := n, Info := l } : subtitleInfo) ∈ subs) ∧
      (∀ l, strings.HasPrefix l trackIdLit = false →
        strings.TrimPrefix l trackIdLit = l ∧
          numeralOf l = l.takeWhile (fun c => decide (c ≠ 58))) := by
  rw [extractSubtitleInfo_eq]
  have hshape : ∀ subs, processLines (rawLines out) [] = .ok subs →
      ∀ l ∈ lines out, strings.Contains l subtitlesLit = true →
        ∃ d, lineResult l = .ok (some d) := by
    intro subs h l hl hc
    obtain ⟨h1, -⟩ := processLines_ok _ _ _ h
    obtain ⟨raw, hraw, rfl⟩ := List.mem_map.1 hl
    obtain ⟨-, r, hr⟩ := h1 raw hraw
    cases r with
    | none =>
      have := lineResult_none _ hr
      rw [hc] at this
      simp at this
    | some d => exact ⟨d, hr⟩
  refine ⟨⟨?_, ?_⟩, ?_, ?_⟩
  · rintro ⟨subs, h⟩
    refine ⟨fun raw hraw => ((processLines_ok _ _ _ h).1 raw hraw).1, fun l hl hc => ?_⟩
    obtain ⟨d, hd⟩ := hshape subs h l hl hc
    exact accepted_of_lineResult l d hd
  · rintro ⟨hshort, hacc⟩
    apply processLines_succeeds
    intro raw hraw
    refine ⟨hshort raw hraw, ?_⟩
    by_cases hc : strings.Contains (bufio.dropCR raw) subtitlesLit = true
    · have ha := hacc _ (List.mem_map.2 ⟨raw, hraw, rfl⟩) hc
      have hex := ha
      obtain ⟨n, -, -, -, hat⟩ := hex
      exact ⟨_, lineResult_of_accepted _ n hc ha hat⟩
    · simp only [Bool.not_eq_true] at hc
      exact ⟨none, lineResult_not_subtitle _ hc⟩
  · intro subs h l hl hc n hat
    obtain ⟨d, hd⟩ := hshape subs h l hl hc
    have ha := accepted_of_lineResult l d hd
    obtain ⟨raw, hraw, rfl⟩ := List.mem_map.1 hl
    exact (processLines_mem _ _ _ h).2 raw hraw _ (lineResult_of_accepted _ n hc ha hat)
  · intro l hl
    have ht : strings.TrimPrefix l trackIdLit = l := by
      simp [strings.TrimPrefix, hl]
    exact ⟨ht, by rw [numeralOf, ht]⟩

theorem extractSubtitleInfo_ok_lines_witness :
    (∃ subs, extractSubtitleInfo (some (ascii "5: subtitles")) = .ok subs) ∧
      AcceptedLine (ascii "5: subtitles") ∧
      strings.TrimPrefix (ascii "5: subtitles") trackIdLit = ascii "5: subtitles" :=
  ⟨(extractSubtitleInfo_ok_lines (ascii "5: subtitles")).1.2
      ⟨by decide, fun l hl _ =>
        (List.mem_singleton.1 (show l ∈ [ascii "5: subtitles"] from hl)) ▸
          ⟨5, ascii " subtitles", by decide, by decide, by decide⟩⟩,
    ((extractSubtitleInfo_ok_lines (ascii "5: subtitles")).1.1
      ⟨[⟨5, ascii "5: subtitles"⟩], by decide⟩).2 (ascii "5: subtitles") (by decide)
      (by decide),
    ((extractSubtitleInfo_ok_lines (ascii "5: subtitles")).2.2 (ascii "5: subtitles")
      (by decide)).1⟩

/-- Claim C8, as stated, fails on the code.  On the output
`Track ID -3: subtitles` discovery succeeds and returns a descriptor whose track
id is `-3`: `strconv.Atoi` accepts a sign. -/
theorem extractSubtitleInfo_negative_counterexample :
    extractSubtitleInfo (some (ascii "Track ID -3: subtitles")) =
        .ok [⟨-3, ascii "Track ID -3: subtitles"⟩] ∧
      numeralOf (ascii "Track ID -3: subtitles") = ascii "-3" ∧
      ¬ (0 : Int) ≤ (subtitleInfo.mk (-3) (ascii "Track ID -3: subtitles")).Track := by
  refine ⟨by decide, by decide, by decide⟩

/-- Claim C8 (amended).  If discovery succeeds, every returned descriptor comes
from a line of the output containing `"subtitles"`, its track id is the value
`strconv.Atoi` gives to the text before the first `:`, and the id is negative
only if that text begins with a minus sign.  A subtitle line whose text before
the first `:` is rejected by `strconv.Atoi` makes discovery fail. -/
theorem extractSubtitleInfo_track_sign (out : GoString) (subs : List subtitleInfo) :
    (extractSubtitleInfo (some out) = .ok subs →
      ∀ d ∈ subs, d.Info ∈ lines out ∧ strings.Contains d.Info subtitlesLit = true ∧
        strconv.Atoi (numeralOf d.Info) = .ok d.Track ∧
        (d.Track < 0 → (numeralOf d.Info).head? = some 45)) ∧
    ((∃ l ∈ lines out, strings.Contains l subtitlesLit = true ∧
        ∃ e, strconv.Atoi (numeralOf l) = .error e) →
      ∃ e, extractSubtitleInfo (some out) = .error e) := by
  rw [extractSubtitleInfo_eq]
  constructor
  · intro h d hd
    obtain ⟨-, h2⟩ := processLines_ok _ _ _ h
    rcases h2 d hd with hd | ⟨raw, hraw, hl⟩
    · simp at hd
    · obtain ⟨hc, hinfo, -, -, hat⟩ := lineResult_some _ d hl
      rw [hinfo]
      exact ⟨List.mem_map.2 ⟨raw, hraw, rfl⟩, hc, hat, fun hneg => Atoi_neg _ _ hat hneg⟩
  · rintro ⟨l, hl, hc, e, he⟩
    obtain ⟨raw, hraw, rfl⟩ := List.mem_map.1 hl
    exact (processLines_malformed (rawLines out) []
      ⟨raw, hraw, hc, Or.inr (Or.inr ⟨e, he⟩)⟩).1

theorem extractSubtitleInfo_track_sign_witness :
    (numeralOf (ascii "Track ID -3: subtitles")).head? = some 45 ∧
      ∃ e, extractSubtitleInfo (some (ascii "Track ID 3x: subtitles")) = .error e :=
  ⟨((extractSubtitleInfo_track_sign (ascii "Track ID -3: subtitles")
      [⟨-3, ascii "Track ID -3: subtitles"⟩]).1 (by decide)
      ⟨-3, ascii "Track ID -3: subtitles"⟩ (by decide)).2.2.2 (by decide),
    (extractSubtitleInfo_track_sign (ascii "Track ID 3x: subtitles") []).2
      ⟨ascii "Track ID 3x: subtitles", by decide, by decide, .ErrSyntax, by decide⟩⟩

end MkvDualSub
